import Mathlib

/-!
Verification development for the Live Component-Graph Introspection and
Mutation Engine of `src/lib/react-fiber.ts`.

The engine's browser-side routines are shallowly embedded as Lean
functions.  JavaScript values are modelled by `JSVal`; object-shaped
values live behind references into an explicit `Heap`, which lets the
model represent self-referential (cyclic) object graphs exactly as a
JavaScript heap does.  Machine numbers that the engine only passes
through are modelled as `Int`; render durations, on which the profiler
performs arithmetic, are modelled as `ℚ`.  Mutable globals
(`__RDM_FIBERS__`, `__RDM_PROFILER_DATA__`, the patched commit callback)
are threaded as explicit state.
-/

namespace ReactFiber

/-- Lowercasing as performed by `String.prototype.toLowerCase`, modelled
per character. -/
def lowerStr (s : String) : String := String.mk (s.toList.map Char.toLower)

/-- `s.includes(q)`: `q` occurs contiguously inside `s`. -/
def strIncludes (s q : String) : Bool :=
  (List.range (s.toList.length + 1)).any (fun i => q.toList.isPrefixOf (s.toList.drop i))

-- ── JavaScript values and the heap ──────────────────────────────────────────

/-- A JavaScript value as seen by the engine.  Object-shaped values
(arrays, DOM elements, React elements, plain objects) are references
into a `Heap`, so cyclic structures are representable. -/
inductive JSVal where
  | null
  | undefVal
  | bool (b : Bool)
  | num (n : Int)
  | str (s : String)
  /-- `typeof v === "function"`; `name` is the function's `name`
  property (`""` for an anonymous function). -/
  | func (name : String)
  /-- a Symbol; `text` is its `toString()` form. -/
  | sym (text : String)
  | ref (addr : Nat)

/-- Reading an object property either yields a value or throws (a
throwing getter). -/
inductive FieldVal where
  | val (v : JSVal)
  | throws

/-- A heap object.  The four shapes are distinguished exactly as the
serializer distinguishes them: `instanceof HTMLElement`,
`Array.isArray`, a truthy `$$typeof` marker, and everything else a
plain keyed object.  A plain object's fields are listed in
`Object.keys` order; a React element's `elemType` is the precomputed
`type?.displayName ?? type?.name ?? type` (as a string), `none` when
all are absent. -/
inductive HeapObj where
  | htmlElem (tagName className : String)
  | arr (elems : List JSVal)
  | reactElem (elemType : Option String)
  | obj (fields : List (String × FieldVal))

/-- The JavaScript heap: every address holds an object. -/
def Heap : Type := Nat → HeapObj

/-- A plain, JSON-representable value: the serializer's output type.
The serializer is a total Lean function into this type, which is the
model of "returns a value and never raises". -/
inductive SerVal where
  | null
  | undefVal
  | bool (b : Bool)
  | num (n : Int)
  | str (s : String)
  | arr (elems : List SerVal)
  | obj (fields : List (String × SerVal))

-- ── Safe Serializer (`safeSerialize`, react-fiber.ts lines 226–247) ─────────

/-- Recursion kernel of `safeSerialize`, indexed by remaining depth
budget `fuel = 4 - depth`: the source checks `depth > 3` at entry,
which is exactly `fuel = 0`, and each recursive call passes
`depth + 1`, i.e. `fuel - 1`. -/
def serializeFuel (h : Heap) : Nat → JSVal → SerVal
  | 0, _ => .str "[max depth]"
  | _ + 1, .null => .null
  | _ + 1, .undefVal => .undefVal
  | _ + 1, .func name =>
      .str ("[Function: " ++ (if name = "" then "anonymous" else name) ++ "]")
  | _ + 1, .sym text => .str text
  | _ + 1, .bool b => .bool b
  | _ + 1, .num n => .num n
  | _ + 1, .str s => .str s
  | fuel + 1, .ref a =>
      match h a with
      | .htmlElem tagName className =>
          .str ("[" ++ lowerStr tagName ++ "." ++ className ++ "]")
      | .arr elems =>
          .arr ((elems.take 10).map (fun v => serializeFuel h fuel v))
      | .reactElem elemType =>
          .str ("[ReactElement: " ++ elemType.getD "unknown" ++ "]")
      | .obj fields =>
          .obj ((fields.take 20).map (fun kv =>
            (kv.1, match kv.2 with
                   | .val v => serializeFuel h fuel v
                   | .throws => .str "[unserializable]")))

/-- `safeSerialize(val, depth)`: depth-limited to 3, truncates arrays to
10 elements and objects to 20 keys, replaces a field whose read throws
by `"[unserializable]"`.  Total: it never raises. -/
def safeSerialize (h : Heap) (v : JSVal) (depth : Nat := 0) : SerVal :=
  serializeFuel h (4 - depth) v

-- ── Size bounds on serializer output ────────────────────────────────────────

mutual

/-- Height of a serialized value (a leaf has height 1). -/
def serHeight : SerVal → Nat
  | .arr elems => 1 + serHeightList elems
  | .obj fields => 1 + serHeightFields fields
  | _ => 1

def serHeightList : List SerVal → Nat
  | [] => 0
  | v :: vs => max (serHeight v) (serHeightList vs)

def serHeightFields : List (String × SerVal) → Nat
  | [] => 0
  | kv :: kvs => max (serHeight kv.2) (serHeightFields kvs)

end

mutual

/-- Every array node of a serialized value has at most 10 elements and
every object node at most 20 fields. -/
def serBounded : SerVal → Bool
  | .arr elems => decide (elems.length ≤ 10) && serBoundedList elems
  | .obj fields => decide (fields.length ≤ 20) && serBoundedFields fields
  | _ => true

def serBoundedList : List SerVal → Bool
  | [] => true
  | v :: vs => serBounded v && serBoundedList vs

def serBoundedFields : List (String × SerVal) → Bool
  | [] => true
  | kv :: kvs => serBounded kv.2 && serBoundedFields kvs

end

theorem serHeightList_le {l : List SerVal} {b : Nat}
    (h : ∀ v ∈ l, serHeight v ≤ b) : serHeightList l ≤ b := by
  induction l with
  | nil => simp [serHeightList]
  | cons v vs ih =>
      rw [serHeightList]
      exact max_le (h v (by simp)) (ih fun x hx => h x (by simp [hx]))

theorem serHeightFields_le {l : List (String × SerVal)} {b : Nat}
    (h : ∀ kv ∈ l, serHeight kv.2 ≤ b) : serHeightFields l ≤ b := by
  induction l with
  | nil => simp [serHeightFields]
  | cons kv kvs ih =>
      rw [serHeightFields]
      exact max_le (h kv (by simp)) (ih fun x hx => h x (by simp [hx]))

theorem serBoundedList_of {l : List SerVal}
    (h : ∀ v ∈ l, serBounded v = true) : serBoundedList l = true := by
  induction l with
  | nil => rfl
  | cons v vs ih =>
      rw [serBoundedList, Bool.and_eq_true]
      exact ⟨h v (by simp), ih fun x hx => h x (by simp [hx])⟩

theorem serBoundedFields_of {l : List (String × SerVal)}
    (h : ∀ kv ∈ l, serBounded kv.2 = true) : serBoundedFields l = true := by
  induction l with
  | nil => rfl
  | cons kv kvs ih =>
      rw [serBoundedFields, Bool.and_eq_true]
      exact ⟨h kv (by simp), ih fun x hx => h x (by simp [hx])⟩

/-- The serializer's output height is bounded by the depth budget. -/
theorem serializeFuel_height (h : Heap) :
    ∀ (fuel : Nat) (v : JSVal), serHeight (serializeFuel h fuel v) ≤ fuel + 1 := by
  intro fuel
  induction fuel with
  | zero => intro v; simp [serializeFuel, serHeight]
  | succ n ih =>
      intro v
      match v with
      | .null | .undefVal | .bool _ | .num _ | .str _ | .func _ | .sym _ =>
          simp [serializeFuel, serHeight]
      | .ref a =>
          rw [serializeFuel]
          match h a with
          | .htmlElem t c => simp [serHeight]
          | .reactElem ty => simp [serHeight]
          | .arr elems =>
              simp only [serHeight]
              have : serHeightList ((elems.take 10).map (fun v => serializeFuel h n v)) ≤ n + 1 := by
                apply serHeightList_le
                intro x hx
                obtain ⟨w, _, rfl⟩ := List.mem_map.mp hx
                exact ih w
              omega
          | .obj fields =>
              simp only [serHeight]
              have : serHeightFields ((fields.take 20).map (fun kv =>
                  (kv.1, match kv.2 with
                         | .val v => serializeFuel h n v
                         | .throws => .str "[unserializable]"))) ≤ n + 1 := by
                apply serHeightFields_le
                intro x hx
                obtain ⟨w, _, rfl⟩ := List.mem_map.mp hx
                match w.2 with
                | .val v => exact ih v
                | .throws => simp [serHeight]
              omega

/-- The serializer's output respects the 10-element / 20-key bounds at
every node. -/
theorem serializeFuel_bounded (h : Heap) :
    ∀ (fuel : Nat) (v : JSVal), serBounded (serializeFuel h fuel v) = true := by
  intro fuel
  induction fuel with
  | zero => intro v; rfl
  | succ n ih =>
      intro v
      match v with
      | .null | .undefVal | .bool _ | .num _ | .str _ | .func _ | .sym _ =>
          rfl
      | .ref a =>
          rw [serializeFuel]
          match h a with
          | .htmlElem t c => rfl
          | .reactElem ty => rfl
          | .arr elems =>
              rw [serBounded, Bool.and_eq_true]
              constructor
              · simp
              · apply serBoundedList_of
                intro x hx
                obtain ⟨w, _, rfl⟩ := List.mem_map.mp hx
                exact ih w
          | .obj fields =>
              rw [serBounded, Bool.and_eq_true]
              constructor
              · simp
              · apply serBoundedFields_of
                intro x hx
                obtain ⟨w, _, rfl⟩ := List.mem_map.mp hx
                match w.2 with
                | .val v => exact ih v
                | .throws => rfl

/-- C1: For every heap and every value — including self-referential
(cyclic) structures, functions, and symbols — `safeSerialize` is a
total function into plain values (it never raises).  A call at depth
greater than 3 collapses to the `"[max depth]"` sentinel; the output's
nesting height is bounded by the depth budget; every array in the
output keeps at most its first 10 elements and every object at most
its first 20 keys, and at any non-exhausted depth an array serializes
to exactly its first 10 elements recursively serialized, and an object
to its first 20 keys with a throwing field replaced by
`"[unserializable]"` instead of aborting the structure. -/
theorem safeSerialize_total_bounded (h : Heap) (v : JSVal) (depth : Nat) :
    (3 < depth → safeSerialize h v depth = .str "[max depth]") ∧
    serHeight (safeSerialize h v depth) ≤ (4 - depth) + 1 ∧
    serBounded (safeSerialize h v depth) = true ∧
    (depth ≤ 3 → ∀ a elems, h a = .arr elems →
      safeSerialize h (.ref a) depth =
        .arr ((elems.take 10).map (fun w => safeSerialize h w (depth + 1)))) ∧
    (depth ≤ 3 → ∀ a fields, h a = .obj fields →
      safeSerialize h (.ref a) depth =
        .obj ((fields.take 20).map (fun kv =>
          (kv.1, match kv.2 with
                 | .val w => safeSerialize h w (depth + 1)
                 | .throws => .str "[unserializable]")))) := by
  refine ⟨?_, ?_, ?_, ?_, ?_⟩
  · intro hd
    have : 4 - depth = 0 := by omega
    rw [safeSerialize, this]
    rfl
  · exact serializeFuel_height h (4 - depth) v
  · exact serializeFuel_bounded h (4 - depth) v
  · intro hd a elems ha
    have h4 : 4 - depth = (4 - (depth + 1)) + 1 := by omega
    rw [safeSerialize, h4, serializeFuel, ha]
    rfl
  · intro hd a fields ha
    have h4 : 4 - depth = (4 - (depth + 1)) + 1 := by omega
    rw [safeSerialize, h4, serializeFuel, ha]
    rfl

/-- A self-referential heap: address 0 holds an object whose field
`self` points back at address 0 and whose field `boom` throws when
read. -/
def cyclicHeap : Heap := fun _ =>
  .obj [("self", .val (.ref 0)), ("boom", .throws)]

theorem safeSerialize_total_bounded_witness :
    (3 < 4 ∧ safeSerialize cyclicHeap (.ref 0) 4 = .str "[max depth]") ∧
    ((0 : Nat) ≤ 3 ∧
      safeSerialize cyclicHeap (.ref 0) 0 =
        .obj [("self", safeSerialize cyclicHeap (.ref 0) 1),
              ("boom", .str "[unserializable]")]) ∧
    serBounded (safeSerialize cyclicHeap (.ref 0) 0) = true := by
  refine ⟨⟨by omega, (safeSerialize_total_bounded cyclicHeap (.ref 0) 4).1 (by omega)⟩,
          ⟨by omega, ?_⟩,
          (safeSerialize_total_bounded cyclicHeap (.ref 0) 0).2.2.1⟩
  have := (safeSerialize_total_bounded cyclicHeap (.ref 0) 0).2.2.2.2 (by omega) 0
    [("self", .val (.ref 0)), ("boom", .throws)] rfl
  simpa using this

-- ── Fiber model ─────────────────────────────────────────────────────────────

/-- Outcome of invoking a target-owned update function (a class
instance's `setState` or a hook queue's `dispatch`): it either returns
or throws with a message. -/
inductive DispatchBeh where
  | ok
  | throws (msg : String)
deriving Repr, DecidableEq

/-- A hook record's update queue (`state.queue`).
`lastRenderedReducerName` is `queue.lastRenderedReducer?.name`;
`dispatch = some _` models `typeof queue.dispatch === "function"`. -/
structure Queue where
  lastRenderedReducerName : Option String
  dispatch : Option DispatchBeh
deriving Repr, DecidableEq

/-- One record of the `memoizedState` linked list of a function
component, i.e. one hook. -/
structure HookRec where
  queue : Option Queue
  memoizedState : JSVal

/-- A class component's instance (`fiber.stateNode`).
`setState = some _` models `typeof stateNode.setState === "function"`. -/
structure StateNode where
  state : JSVal
  setState : Option DispatchBeh

/-- The data `fiber.type` contributes to name resolution: absent, a
string (host elements), or an object/function carrying optional
`displayName`, `name`, `render?.displayName` and `render?.name`. -/
inductive FiberType where
  | noType
  | strType (s : String)
  | objType (displayName fname renderDisplayName renderName : Option String)

/-- A live fiber node.  `children` is the `child`/`sibling` chain in
left-to-right order; `hooks` is the `memoizedState` linked list of a
function component; `alternate` is the truthiness of
`fiber.alternate`; `actualDuration` models the profiling duration
field, absent-or-zero both being the falsy `0`. -/
inductive Fiber where
  | mk (tag : Nat) (key : Option String) (tyInfo : FiberType)
       (hooks : List HookRec) (stateNode : Option StateNode)
       (alternate : Bool) (actualDuration : ℚ)
       (children : List Fiber)

def Fiber.tag : Fiber → Nat
  | .mk t _ _ _ _ _ _ _ => t

def Fiber.key : Fiber → Option String
  | .mk _ k _ _ _ _ _ _ => k

def Fiber.tyInfo : Fiber → FiberType
  | .mk _ _ ty _ _ _ _ _ => ty

def Fiber.hooks : Fiber → List HookRec
  | .mk _ _ _ hk _ _ _ _ => hk

def Fiber.stateNode : Fiber → Option StateNode
  | .mk _ _ _ _ sn _ _ _ => sn

def Fiber.alternate : Fiber → Bool
  | .mk _ _ _ _ _ alt _ _ => alt

def Fiber.actualDuration : Fiber → ℚ
  | .mk _ _ _ _ _ _ dur _ => dur

def Fiber.children : Fiber → List Fiber
  | .mk _ _ _ _ _ _ _ cs => cs

/-- The `TAGS` table of `getComponentTree` (react-fiber.ts lines
109–115). -/
def tagsTree (t : Nat) : Option String :=
  match t with
  | 0 => some "FunctionComponent"
  | 1 => some "ClassComponent"
  | 2 => some "IndeterminateComponent"
  | 3 => some "HostRoot"
  | 5 => some "HostComponent"
  | 6 => some "HostText"
  | 7 => some "Fragment"
  | 8 => some "Mode"
  | 10 => some "ForwardRef"
  | 11 => some "SimpleMemoComponent"
  | 12 => some "MemoComponent"
  | 13 => some "SuspenseComponent"
  | 14 => some "ProfilerComponent"
  | 15 => some "ContextConsumer"
  | 16 => some "ContextProvider"
  | 22 => some "OffscreenComponent"
  | _ => none

/-- The smaller `TAGS` table of `searchComponents` (lines 351–355). -/
def tagsSearch (t : Nat) : Option String :=
  match t with
  | 0 => some "FunctionComponent"
  | 1 => some "ClassComponent"
  | 5 => some "HostComponent"
  | 10 => some "ForwardRef"
  | 11 => some "SimpleMemoComponent"
  | 12 => some "MemoComponent"
  | 13 => some "SuspenseComponent"
  | 16 => some "ContextProvider"
  | _ => none

/-- `getName(fiber)` relative to a `TAGS` table: no `type` falls back to
the table (or `Unknown(tag)`), a string `type` is returned verbatim,
otherwise `displayName ?? name ?? render?.displayName ?? render?.name
?? "Anonymous"`. -/
def getName (tags : Nat → Option String) (f : Fiber) : String :=
  match f.tyInfo with
  | .noType => (tags f.tag).getD ("Unknown(" ++ toString f.tag ++ ")")
  | .strType s => s
  | .objType d n rd rn => d.getD (n.getD (rd.getD (rn.getD "Anonymous")))

-- ── Tree Walker (`getComponentTree`, lines 99–199) ──────────────────────────

/-- A node of the caller-facing summary forest. -/
inductive SummaryNode where
  | mk (fiberIndex : Nat) (name : String) (type : String) (key : Option String)
       (depth : Nat) (children : List SummaryNode)

def SummaryNode.fiberIndex : SummaryNode → Nat
  | .mk i _ _ _ _ _ => i

def SummaryNode.name : SummaryNode → String
  | .mk _ n _ _ _ _ => n

def SummaryNode.type : SummaryNode → String
  | .mk _ _ ty _ _ _ => ty

def SummaryNode.key : SummaryNode → Option String
  | .mk _ _ _ k _ _ => k

def SummaryNode.depth : SummaryNode → Nat
  | .mk _ _ _ _ d _ => d

def SummaryNode.children : SummaryNode → List SummaryNode
  | .mk _ _ _ _ _ cs => cs

/-- Walker state: the running `index` counter and the `__RDM_FIBERS__`
registry being filled (position = handle). -/
structure WalkSt where
  index : Nat
  fibers : List Fiber

/-- `shouldInclude(fiber)` (lines 133–140). -/
def shouldInclude (includeHtml : Bool) (f : Fiber) : Bool :=
  if ([0, 1, 10, 11, 12, 13, 14, 16] : List Nat).contains f.tag then true
  else if includeHtml && (f.tag == 5) then true
  else false

/-- The `type` string stored on a summary node:
`TAGS[fiber.tag] ?? Tag(tag)`. -/
def typeStrTree (t : Nat) : String :=
  (tagsTree t).getD ("Tag(" ++ toString t ++ ")")

mutual

/-- `walkFiber(fiber, depth)` (lines 142–177): an included node is
registered (handle = running index) and emitted with its children
walked at `depth + 1`; a transparent node is skipped and its children
walked at the same `depth`; recursion stops above `maxDepth`. -/
def walkFiber (maxDepth : Nat) (includeHtml : Bool) (f : Fiber) (depth : Nat)
    (st : WalkSt) : List SummaryNode × WalkSt :=
  match f with
  | .mk tag key ty hk sn alt dur cs =>
    if depth > maxDepth then ([], st)
    else if shouldInclude includeHtml (.mk tag key ty hk sn alt dur cs) then
      let fiberIndex := st.index
      let r := walkChildren maxDepth includeHtml cs (depth + 1)
        ⟨fiberIndex + 1, st.fibers ++ [.mk tag key ty hk sn alt dur cs]⟩
      ([SummaryNode.mk fiberIndex (getName tagsTree (.mk tag key ty hk sn alt dur cs))
          (typeStrTree tag) key depth r.1], r.2)
    else
      walkChildren maxDepth includeHtml cs depth st

/-- The `while (child) { ... child = child.sibling }` loop of
`walkFiber`, and also the loop over roots (both push results in
sibling order). -/
def walkChildren (maxDepth : Nat) (includeHtml : Bool) (l : List Fiber) (depth : Nat)
    (st : WalkSt) : List SummaryNode × WalkSt :=
  match l with
  | [] => ([], st)
  | c :: rest =>
      let r1 := walkFiber maxDepth includeHtml c depth st
      let r2 := walkChildren maxDepth includeHtml rest depth r1.2
      (r1.1 ++ r2.1, r2.2)

end

/-- `getComponentTree(page, maxDepth, includeHtml)`: resets
`__RDM_FIBERS__` to a fresh empty registry (the incoming registry
`reg` is discarded), then walks every root at depth 0.  `roots` is the
flattened list of `root.current` fibers over all renderers. -/
def getComponentTree (maxDepth : Nat) (includeHtml : Bool) (roots : List Fiber)
    (_reg : Option (List Fiber)) : List SummaryNode × Option (List Fiber) :=
  let r := walkChildren maxDepth includeHtml roots 0 ⟨0, []⟩
  (r.1, some r.2.fibers)

-- ── Structural functions used to state the walker's properties ──────────────

mutual

/-- Depth-first (document) order of a live subtree: a node before its
children, siblings left to right. -/
def preorder : Fiber → List Fiber
  | .mk tag key ty hk sn alt dur cs =>
      .mk tag key ty hk sn alt dur cs :: preorderList cs

def preorderList : List Fiber → List Fiber
  | [] => []
  | c :: rest => preorder c ++ preorderList rest

end

mutual

/-- Height of a fiber tree (a leaf has height 1). -/
def heightF : Fiber → Nat
  | .mk _ _ _ _ _ _ _ cs => 1 + heightL cs

def heightL : List Fiber → Nat
  | [] => 0
  | c :: rest => max (heightF c) (heightL rest)

end

mutual

/-- All summary nodes of a summary tree, the node itself included. -/
def flatten : SummaryNode → List SummaryNode
  | .mk i n ty k d cs => .mk i n ty k d cs :: flattenList cs

def flattenList : List SummaryNode → List SummaryNode
  | [] => []
  | n :: rest => flatten n ++ flattenList rest

end

mutual

/-- Each child of a summary node sits at the parent's depth plus one,
recursively. -/
def depthOk : SummaryNode → Bool
  | .mk _ _ _ _ d cs => depthOkList cs (d + 1)

def depthOkList : List SummaryNode → Nat → Bool
  | [], _ => true
  | n :: rest, d => (n.depth == d) && depthOk n && depthOkList rest d

end

-- ── Walker lemmas ───────────────────────────────────────────────────────────

/-- The (name, type, key) signature of a summary node. -/
def summKey (n : SummaryNode) : String × String × Option String :=
  (n.name, n.type, n.key)

/-- The (name, type, key) signature an included fiber produces. -/
def fibKey (g : Fiber) : String × String × Option String :=
  (getName tagsTree g, typeStrTree g.tag, g.key)

theorem shouldInclude_iff (inc : Bool) (f : Fiber) :
    shouldInclude inc f = true ↔
      f.tag = 0 ∨ f.tag = 1 ∨ f.tag = 10 ∨ f.tag = 11 ∨ f.tag = 12 ∨
      f.tag = 13 ∨ f.tag = 14 ∨ f.tag = 16 ∨ (inc = true ∧ f.tag = 5) := by
  rw [shouldInclude]
  constructor
  · intro h
    split at h
    · next hc =>
        simp only [List.contains_eq_any_beq, List.any_eq_true, beq_iff_eq] at hc
        obtain ⟨x, hx, rfl⟩ := hc
        simp only [List.mem_cons, List.not_mem_nil, or_false] at hx
        tauto
    · split at h
      · next hc2 =>
          simp only [Bool.and_eq_true, beq_iff_eq] at hc2
          tauto
      · exact absurd h (by simp)
  · intro h
    rcases h with h | h | h | h | h | h | h | h | ⟨hi, h⟩
    · rw [h]; cases inc <;> decide
    · rw [h]; cases inc <;> decide
    · rw [h]; cases inc <;> decide
    · rw [h]; cases inc <;> decide
    · rw [h]; cases inc <;> decide
    · rw [h]; cases inc <;> decide
    · rw [h]; cases inc <;> decide
    · rw [h]; cases inc <;> decide
    · rw [h, hi]; decide

theorem map_eq_map_mem {α β γ : Type} {l1 : List α} {l2 : List β}
    {f : α → γ} {g : β → γ} (h : l1.map f = l2.map g) :
    ∀ x ∈ l1, ∃ y ∈ l2, f x = g y := by
  induction l1 generalizing l2 with
  | nil => intro x hx; cases hx
  | cons a as ih =>
      cases l2 with
      | nil => cases h
      | cons b bs =>
          simp only [List.map_cons, List.cons.injEq] at h
          intro x hx
          rcases List.mem_cons.mp hx with rfl | hx2
          · exact ⟨b, by simp, h.1⟩
          · obtain ⟨y, hy, hxy⟩ := ih h.2 x hx2
            exact ⟨y, by simp [hy], hxy⟩

theorem flattenList_append (l1 l2 : List SummaryNode) :
    flattenList (l1 ++ l2) = flattenList l1 ++ flattenList l2 := by
  induction l1 with
  | nil => simp [flattenList]
  | cons n rest ih => simp [flattenList, ih]

mutual

/-- What one `walkFiber` call appends to the registry: some list of
fibers each satisfying `shouldInclude`, whose (name, type, key)
signatures are exactly those of the emitted summary nodes in
depth-first order. -/
theorem walkFiber_delta (maxDepth : Nat) (includeHtml : Bool) (f : Fiber)
    (depth : Nat) (st : WalkSt) :
    ∃ δ : List Fiber,
      (walkFiber maxDepth includeHtml f depth st).2.fibers = st.fibers ++ δ ∧
      (walkFiber maxDepth includeHtml f depth st).2.index = st.index + δ.length ∧
      (∀ g ∈ δ, shouldInclude includeHtml g = true) ∧
      (flattenList (walkFiber maxDepth includeHtml f depth st).1).map summKey =
        δ.map fibKey := by
  match f with
  | .mk tag key ty hk sn alt dur cs =>
    rw [walkFiber]
    by_cases hd : depth > maxDepth
    · exact ⟨[], by simp [hd, flattenList]⟩
    · simp only [hd, if_false]
      by_cases hinc :
          shouldInclude includeHtml (.mk tag key ty hk sn alt dur cs) = true
      · simp only [hinc, if_true]
        obtain ⟨δ, h1, h2, h3, h4⟩ := walkChildren_delta maxDepth includeHtml cs
          (depth + 1) ⟨st.index + 1, st.fibers ++ [.mk tag key ty hk sn alt dur cs]⟩
        have h1b : (walkChildren maxDepth includeHtml cs (depth + 1)
            ⟨st.index + 1, st.fibers ++ [Fiber.mk tag key ty hk sn alt dur cs]⟩).2.fibers =
            (st.fibers ++ [Fiber.mk tag key ty hk sn alt dur cs]) ++ δ := h1
        have h2b : (walkChildren maxDepth includeHtml cs (depth + 1)
            ⟨st.index + 1, st.fibers ++ [Fiber.mk tag key ty hk sn alt dur cs]⟩).2.index =
            (st.index + 1) + δ.length := h2
        refine ⟨.mk tag key ty hk sn alt dur cs :: δ, ?_, ?_, ?_, ?_⟩
        · rw [h1b, List.append_assoc]
          rfl
        · rw [h2b, List.length_cons]
          omega
        · intro g hg
          rcases List.mem_cons.mp hg with rfl | hg2
          · exact hinc
          · exact h3 g hg2
        · simp only [flattenList, flatten, List.append_nil, List.map_cons]
          rw [h4]
          rfl
      · rw [Bool.not_eq_true] at hinc
        simp only [hinc, Bool.false_eq_true, if_false]
        exact walkChildren_delta maxDepth includeHtml cs depth st

/-- List version of `walkFiber_delta`. -/
theorem walkChildren_delta (maxDepth : Nat) (includeHtml : Bool) (l : List Fiber)
    (depth : Nat) (st : WalkSt) :
    ∃ δ : List Fiber,
      (walkChildren maxDepth includeHtml l depth st).2.fibers = st.fibers ++ δ ∧
      (walkChildren maxDepth includeHtml l depth st).2.index = st.index + δ.length ∧
      (∀ g ∈ δ, shouldInclude includeHtml g = true) ∧
      (flattenList (walkChildren maxDepth includeHtml l depth st).1).map summKey =
        δ.map fibKey := by
  match l with
  | [] => exact ⟨[], by simp [walkChildren, flattenList]⟩
  | c :: rest =>
      rw [walkChildren]
      obtain ⟨δ1, h11, h12, h13, h14⟩ := walkFiber_delta maxDepth includeHtml c depth st
      obtain ⟨δ2, h21, h22, h23, h24⟩ := walkChildren_delta maxDepth includeHtml rest
        depth (walkFiber maxDepth includeHtml c depth st).2
      refine ⟨δ1 ++ δ2, ?_, ?_, ?_, ?_⟩
      · simp only []
        rw [h21, h11, List.append_assoc]
      · simp only []
        rw [h22, h12, List.length_append]
        omega
      · intro g hg
        rcases List.mem_append.mp hg with hg1 | hg2
        · exact h13 g hg1
        · exact h23 g hg2
      · simp only []
        rw [flattenList_append, List.map_append, List.map_append, h14, h24]

end

mutual

/-- When the tree is no taller than the depth limit allows, the
registry delta of `walkFiber` is exactly the preorder of the subtree
filtered by `shouldInclude`. -/
theorem walkFiber_nocut (maxDepth : Nat) (includeHtml : Bool) (f : Fiber)
    (depth : Nat) (st : WalkSt) (h : depth + heightF f ≤ maxDepth + 1) :
    (walkFiber maxDepth includeHtml f depth st).2.fibers =
      st.fibers ++ (preorder f).filter (shouldInclude includeHtml) := by
  match f with
  | .mk tag key ty hk sn alt dur cs =>
    rw [walkFiber, preorder]
    rw [heightF] at h
    have hd : ¬ depth > maxDepth := by omega
    simp only [hd, if_false]
    by_cases hinc :
        shouldInclude includeHtml (.mk tag key ty hk sn alt dur cs) = true
    · simp only [hinc, if_true, List.filter_cons, if_true]
      have hc := walkChildren_nocut maxDepth includeHtml cs (depth + 1)
        ⟨st.index + 1, st.fibers ++ [.mk tag key ty hk sn alt dur cs]⟩ (by omega)
      have hcb : (walkChildren maxDepth includeHtml cs (depth + 1)
          ⟨st.index + 1, st.fibers ++ [Fiber.mk tag key ty hk sn alt dur cs]⟩).2.fibers =
          (st.fibers ++ [Fiber.mk tag key ty hk sn alt dur cs]) ++
            (preorderList cs).filter (shouldInclude includeHtml) := hc
      rw [hcb, List.append_assoc]
      rfl
    · rw [Bool.not_eq_true] at hinc
      simp only [hinc, Bool.false_eq_true, if_false, List.filter_cons]
      exact walkChildren_nocut maxDepth includeHtml cs depth st (by omega)

/-- List version of `walkFiber_nocut`. -/
theorem walkChildren_nocut (maxDepth : Nat) (includeHtml : Bool) (l : List Fiber)
    (depth : Nat) (st : WalkSt) (h : depth + heightL l ≤ maxDepth + 1) :
    (walkChildren maxDepth includeHtml l depth st).2.fibers =
      st.fibers ++ (preorderList l).filter (shouldInclude includeHtml) := by
  match l with
  | [] => simp [walkChildren, preorderList]
  | c :: rest =>
      rw [walkChildren, preorderList]
      rw [heightL] at h
      have hm1 : heightF c ≤ max (heightF c) (heightL rest) := le_max_left _ _
      have hm2 : heightL rest ≤ max (heightF c) (heightL rest) := le_max_right _ _
      have h1 := walkFiber_nocut maxDepth includeHtml c depth st (by omega)
      have h2 := walkChildren_nocut maxDepth includeHtml rest depth
        (walkFiber maxDepth includeHtml c depth st).2 (by omega)
      simp only []
      rw [List.filter_append, h2, h1, List.append_assoc]

end

theorem depthOkList_of {l : List SummaryNode} {d : Nat}
    (h : ∀ n ∈ l, n.depth = d ∧ depthOk n = true) : depthOkList l d = true := by
  induction l with
  | nil => rfl
  | cons n rest ih =>
      rw [depthOkList]
      have h1 := h n (by simp)
      simp [h1.1, h1.2, ih fun x hx => h x (by simp [hx])]

mutual

/-- Every summary node `walkFiber` returns sits at exactly the depth it
was visited at, and inside it every child is one deeper than its
parent. -/
theorem walkFiber_depthInv (maxDepth : Nat) (includeHtml : Bool) (f : Fiber)
    (depth : Nat) (st : WalkSt) :
    ∀ n ∈ (walkFiber maxDepth includeHtml f depth st).1,
      n.depth = depth ∧ depthOk n = true := by
  match f with
  | .mk tag key ty hk sn alt dur cs =>
    rw [walkFiber]
    by_cases hd : depth > maxDepth
    · simp [hd]
    · simp only [hd, if_false]
      by_cases hinc :
          shouldInclude includeHtml (.mk tag key ty hk sn alt dur cs) = true
      · simp only [hinc, if_true]
        intro n hn
        have hn2 : n = SummaryNode.mk st.index
            (getName tagsTree (.mk tag key ty hk sn alt dur cs)) (typeStrTree tag)
            key depth (walkChildren maxDepth includeHtml cs (depth + 1)
              ⟨st.index + 1, st.fibers ++ [.mk tag key ty hk sn alt dur cs]⟩).1 := by
          simpa using hn
        subst hn2
        refine ⟨rfl, ?_⟩
        rw [depthOk]
        exact depthOkList_of (walkChildren_depthInv maxDepth includeHtml cs (depth + 1) _)
      · rw [Bool.not_eq_true] at hinc
        simp only [hinc, Bool.false_eq_true, if_false]
        exact walkChildren_depthInv maxDepth includeHtml cs depth st

/-- List version of `walkFiber_depthInv`. -/
theorem walkChildren_depthInv (maxDepth : Nat) (includeHtml : Bool) (l : List Fiber)
    (depth : Nat) (st : WalkSt) :
    ∀ n ∈ (walkChildren maxDepth includeHtml l depth st).1,
      n.depth = depth ∧ depthOk n = true := by
  match l with
  | [] => simp [walkChildren]
  | c :: rest =>
      rw [walkChildren]
      intro n hn
      rcases List.mem_append.mp (by simpa using hn) with h1 | h2
      · exact walkFiber_depthInv maxDepth includeHtml c depth st n h1
      · exact walkChildren_depthInv maxDepth includeHtml rest depth
          (walkFiber maxDepth includeHtml c depth st).2 n h2

end

-- ── Claim theorems for the Tree Walker ──────────────────────────────────────

/-- C2: when the forest fits inside the depth limit, `getComponentTree`
rebuilds the registry as exactly the preorder of the forest filtered by
`shouldInclude` — i.e. a node is emitted and assigned a handle iff its
tag is in {0 FunctionComponent, 1 ClassComponent, 10 ForwardRef,
11 SimpleMemoComponent, 12 MemoComponent, 13 SuspenseComponent,
14 ProfilerComponent, 16 ContextProvider} or (`includeHostElements`
and tag 5 HostComponent); the number of emitted SummaryNodes equals
the number of included nodes; with `includeHostElements = false` every
emitted node's kind is one of the eight always-visible kinds, and in
particular no emitted node has kind HostRoot, HostText, Fragment or
Mode. -/
theorem getComponentTree_inclusion (maxDepth : Nat) (includeHtml : Bool)
    (roots : List Fiber) (reg : Option (List Fiber))
    (hh : heightL roots ≤ maxDepth + 1) :
    (getComponentTree maxDepth includeHtml roots reg).2 =
      some ((preorderList roots).filter (shouldInclude includeHtml)) ∧
    (flattenList (getComponentTree maxDepth includeHtml roots reg).1).length =
      ((preorderList roots).filter (shouldInclude includeHtml)).length ∧
    ∀ n ∈ flattenList (getComponentTree maxDepth includeHtml roots reg).1,
      (includeHtml = false →
        n.type ∈ (["FunctionComponent", "ClassComponent", "ForwardRef",
          "SimpleMemoComponent", "MemoComponent", "SuspenseComponent",
          "ProfilerComponent", "ContextProvider"] : List String)) ∧
      n.type ∉ (["HostRoot", "HostText", "Fragment", "Mode"] : List String) := by
  obtain ⟨δ, h1, h2, h3, h4⟩ := walkChildren_delta maxDepth includeHtml roots 0 ⟨0, []⟩
  have hA := walkChildren_nocut maxDepth includeHtml roots 0 ⟨0, []⟩ (by omega)
  have hδ : δ = (preorderList roots).filter (shouldInclude includeHtml) := by
    have : ([] : List Fiber) ++ δ =
        ([] : List Fiber) ++ (preorderList roots).filter (shouldInclude includeHtml) := by
      rw [← h1, hA]
    simpa using this
  subst hδ
  refine ⟨?_, ?_, ?_⟩
  · show some (walkChildren maxDepth includeHtml roots 0 ⟨0, []⟩).2.fibers = _
    rw [h1]
    simp
  · show (flattenList (walkChildren maxDepth includeHtml roots 0 ⟨0, []⟩).1).length = _
    have := congrArg List.length h4
    simpa using this
  · intro n hn
    obtain ⟨g, hg, hkey⟩ := map_eq_map_mem h4 n hn
    have htype : n.type = typeStrTree g.tag := by
      have := congrArg (fun p => p.2.1) hkey
      simpa [summKey, fibKey] using this
    have hginc := (shouldInclude_iff includeHtml g).mp (h3 g hg)
    rcases hginc with h5 | h5 | h5 | h5 | h5 | h5 | h5 | h5 | ⟨hi, h5⟩ <;>
      rw [htype, h5] <;> constructor <;> first
        | exact fun _ => by decide
        | decide
        | (intro hfalse; rw [hfalse] at hi; cases hi)

/-- C3: in every forest `getComponentTree` returns, root summary nodes
have depth 0 and every child summary node has depth exactly one more
than its parent; moreover a transparent (non-included) node is skipped
without incrementing depth — its children are walked, and their
results spliced in, at the very depth the skipped node was visited
at. -/
theorem getComponentTree_depthInvariant (maxDepth : Nat) (includeHtml : Bool)
    (roots : List Fiber) (reg : Option (List Fiber)) :
    (∀ n ∈ (getComponentTree maxDepth includeHtml roots reg).1,
       n.depth = 0 ∧ depthOk n = true) ∧
    ∀ (f : Fiber) (depth : Nat) (st : WalkSt),
      shouldInclude includeHtml f = false →
      walkFiber maxDepth includeHtml f depth st =
        if depth > maxDepth then ([], st)
        else walkChildren maxDepth includeHtml f.children depth st := by
  constructor
  · intro n hn
    exact walkChildren_depthInv maxDepth includeHtml roots 0 ⟨0, []⟩ n hn
  · intro f depth st hf
    match f with
    | .mk tag key ty hk sn alt dur cs =>
      rw [walkFiber]
      by_cases hd : depth > maxDepth
      · simp [hd]
      · simp only [hd, if_false]
        simp only [hf, Bool.false_eq_true, if_false]
        rfl

/-- C9: `getComponentTree` is deterministic over an unchanged fiber
forest: a second call — in particular the call made on the registry
state the first call left behind — returns a structurally identical
forest (the very same summary nodes, hence the same displayNames,
kinds, keys, depths and child shapes), whatever registry state each
call starts from. -/
theorem getComponentTree_deterministic (maxDepth : Nat) (includeHtml : Bool)
    (roots : List Fiber) (reg : Option (List Fiber)) :
    (getComponentTree maxDepth includeHtml roots
        (getComponentTree maxDepth includeHtml roots reg).2).1 =
      (getComponentTree maxDepth includeHtml roots reg).1 ∧
    ∀ reg2 : Option (List Fiber),
      (getComponentTree maxDepth includeHtml roots reg2).1 =
        (getComponentTree maxDepth includeHtml roots reg).1 :=
  ⟨rfl, fun _ => rfl⟩

-- ── Demo forest used by the witnesses ───────────────────────────────────────

/-- `<Item/>`: a function component leaf. -/
def demoItem : Fiber := .mk 0 none (.objType (some "Item") none none none) [] none false 0 []

/-- `<div>`: a host element wrapping `demoItem`. -/
def demoDiv : Fiber := .mk 5 none (.strType "div") [] none false 0 [demoItem]

/-- `<Header/>`: a function component leaf. -/
def demoHeader : Fiber := .mk 0 none (.objType (some "Header") none none none) [] none false 0 []

/-- `<App/>` rendering a `div` (containing `Item`) and `Header`. -/
def demoApp : Fiber := .mk 0 none (.objType (some "App") none none none) [] none false 0 [demoDiv, demoHeader]

/-- The HostRoot fiber above `demoApp`. -/
def demoRoot : Fiber := .mk 3 none .noType [] none false 0 [demoApp]

def demoItemNode : SummaryNode := .mk 1 "Item" "FunctionComponent" none 1 []

def demoHeaderNode : SummaryNode := .mk 2 "Header" "FunctionComponent" none 1 []

def demoAppNode : SummaryNode :=
  .mk 0 "App" "FunctionComponent" none 0 [demoItemNode, demoHeaderNode]

theorem getComponentTree_inclusion_witness :
    heightL [demoRoot] ≤ 20 + 1 ∧
    (getComponentTree 20 false [demoRoot] none).2 =
      some [demoApp, demoItem, demoHeader] :=
  ⟨by decide,
   by rw [(getComponentTree_inclusion 20 false [demoRoot] none (by decide)).1]; rfl⟩

theorem getComponentTree_depthInvariant_witness :
    demoAppNode ∈ (getComponentTree 20 false [demoRoot] none).1 ∧
    (demoAppNode.depth = 0 ∧ depthOk demoAppNode = true) ∧
    shouldInclude false demoRoot = false ∧
    walkFiber 20 false demoRoot 0 ⟨0, []⟩ =
      (if 0 > 20 then (([], ⟨0, []⟩) : List SummaryNode × WalkSt)
       else walkChildren 20 false demoRoot.children 0 ⟨0, []⟩) := by
  have hmem : demoAppNode ∈ (getComponentTree 20 false [demoRoot] none).1 := by
    show demoAppNode ∈ [demoAppNode]
    simp
  exact ⟨hmem,
    (getComponentTree_depthInvariant 20 false [demoRoot] none).1 demoAppNode hmem,
    by decide,
    (getComponentTree_depthInvariant 20 false [demoRoot] none).2 demoRoot 0 ⟨0, []⟩
      (by decide)⟩

-- ── Search Engine (`searchComponents`, lines 341–413) ───────────────────────

/-- One entry of the Search Engine's result list. -/
structure SearchResult where
  fiberIndex : Nat
  name : String
  type : String
  depth : Nat
  parentName : Option String
  key : Option String
deriving Repr, DecidableEq

/-- Search state: the collected results, the running `index` counter and
the `__RDM_FIBERS__` registry. -/
structure SearchSt where
  results : List SearchResult
  index : Nat
  fibers : List Fiber

/-- The `type` string stored on a search result:
`TAGS[fiber.tag] ?? Tag(tag)` over the search table. -/
def typeStrSearch (t : Nat) : String :=
  (tagsSearch t).getD ("Tag(" ++ toString t ++ ")")

/-- JS array element assignment `arr[i] = x` as performed by the engine:
its writes are always sequential from index 0, so `i ≤ arr.length`
always holds and the assignment either overwrites in place or appends. -/
def setAt (l : List Fiber) (i : Nat) (f : Fiber) : List Fiber :=
  if i < l.length then l.set i f else l ++ [f]

/-- `resolveHandle`: the `!fibers || !fibers[idx]` test that
`inspectComponent` and `modifyState` perform on a registry handle. -/
def resolveHandle (reg : Option (List Fiber)) (i : Nat) : Option Fiber :=
  match reg with
  | none => none
  | some l => l[i]?

mutual

/-- `search(fiber, depth, parentName)` (lines 372–395): unconditionally
registers every visited node, collects it when its lowercased name
contains the query, and walks children while below `maxResults`. -/
def searchFiber (lowQ : String) (maxResults : Nat) (f : Fiber) (depth : Nat)
    (parentName : Option String) (st : SearchSt) : SearchSt :=
  match f with
  | .mk tag key ty hk sn alt dur cs =>
    if st.results.length ≥ maxResults then st
    else
      let name := getName tagsSearch (.mk tag key ty hk sn alt dur cs)
      let fibers1 := setAt st.fibers st.index (.mk tag key ty hk sn alt dur cs)
      let results1 :=
        if strIncludes (lowerStr name) lowQ then
          st.results ++ [⟨st.index, name, typeStrSearch tag, depth, parentName, key⟩]
        else st.results
      searchSiblings lowQ maxResults cs (depth + 1) name
        ⟨results1, st.index + 1, fibers1⟩

/-- The `while (child && results.length < maxResults)` loop. -/
def searchSiblings (lowQ : String) (maxResults : Nat) (l : List Fiber) (depth : Nat)
    (parentName : String) (st : SearchSt) : SearchSt :=
  match l with
  | [] => st
  | c :: rest =>
      if st.results.length < maxResults then
        searchSiblings lowQ maxResults rest depth parentName
          (searchFiber lowQ maxResults c depth (some parentName) st)
      else st

end

/-- The loop over all fiber roots (each searched from depth 0 with no
parent name). -/
def searchRoots (lowQ : String) (maxResults : Nat) (roots : List Fiber)
    (st : SearchSt) : SearchSt :=
  match roots with
  | [] => st
  | r :: rest => searchRoots lowQ maxResults rest (searchFiber lowQ maxResults r 0 none st)

/-- `searchComponents(page, query, maxResults)`.  Note the source only
creates `__RDM_FIBERS__` when absent (`if (!window.__RDM_FIBERS__)`);
an existing registry is kept and overwritten entry by entry from
index 0. -/
def searchComponents (query : String) (maxResults : Nat) (roots : List Fiber)
    (reg : Option (List Fiber)) : List SearchResult × Option (List Fiber) :=
  let init : List Fiber := reg.getD []
  let st := searchRoots (lowerStr query) maxResults roots ⟨[], 0, init⟩
  (st.results, some st.fibers)

-- ── Traversal-order view of the Search Engine ───────────────────────────────

mutual

/-- The depth-first visit order of `search`: each entry is a visited
fiber with the depth and parent name it is visited with. -/
def annPre : Fiber → Nat → Option String → List (Fiber × Nat × Option String)
  | .mk tag key ty hk sn alt dur cs, depth, parent =>
      (.mk tag key ty hk sn alt dur cs, depth, parent) ::
        annPreList cs (depth + 1)
          (some (getName tagsSearch (.mk tag key ty hk sn alt dur cs)))

def annPreList : List Fiber → Nat → Option String → List (Fiber × Nat × Option String)
  | [], _, _ => []
  | c :: rest, depth, parent => annPre c depth parent ++ annPreList rest depth parent

end

/-- Whether a visit matches the (lowercased) query. -/
def matchesQ (lowQ : String) (x : Fiber × Nat × Option String) : Bool :=
  strIncludes (lowerStr (getName tagsSearch x.1)) lowQ

/-- The effect of visiting one node: register it and collect it when it
matches. -/
def visitOne (lowQ : String) (x : Fiber × Nat × Option String) (st : SearchSt) : SearchSt :=
  ⟨(if matchesQ lowQ x then
      st.results ++ [⟨st.index, getName tagsSearch x.1, typeStrSearch x.1.tag,
        x.2.1, x.2.2, x.1.key⟩]
    else st.results),
   st.index + 1, setAt st.fibers st.index x.1⟩

/-- `search` as a scan over the visit order, stopping as soon as the
result count reaches `maxResults`. -/
def scanSearch (lowQ : String) (maxResults : Nat) :
    List (Fiber × Nat × Option String) → SearchSt → SearchSt
  | [], st => st
  | x :: rest, st =>
      if st.results.length ≥ maxResults then st
      else scanSearch lowQ maxResults rest (visitOne lowQ x st)

/-- The shortest prefix of the visit order containing `budget` matches
(the whole list when fewer matches exist): exactly the nodes `search`
visits. -/
def takeNeeded (lowQ : String) : List (Fiber × Nat × Option String) → Nat →
    List (Fiber × Nat × Option String)
  | [], _ => []
  | _ :: _, 0 => []
  | x :: rest, b + 1 =>
      x :: takeNeeded lowQ rest (if matchesQ lowQ x then b else b + 1)

/-- The results produced by visiting a list of nodes whose first handle
is `i`. -/
def mkResults (lowQ : String) : List (Fiber × Nat × Option String) → Nat →
    List SearchResult
  | [], _ => []
  | x :: rest, i =>
      (if matchesQ lowQ x then
        [⟨i, getName tagsSearch x.1, typeStrSearch x.1.tag, x.2.1, x.2.2, x.1.key⟩]
      else []) ++ mkResults lowQ rest (i + 1)

-- ── Search Engine lemmas ────────────────────────────────────────────────────

theorem scanSearch_full (lowQ : String) (maxR : Nat)
    (xs : List (Fiber × Nat × Option String)) (st : SearchSt)
    (h : st.results.length ≥ maxR) : scanSearch lowQ maxR xs st = st := by
  match xs with
  | [] => rfl
  | x :: rest => rw [scanSearch]; simp [h]

theorem scanSearch_append (lowQ : String) (maxR : Nat)
    (l1 l2 : List (Fiber × Nat × Option String)) (st : SearchSt) :
    scanSearch lowQ maxR (l1 ++ l2) st =
      scanSearch lowQ maxR l2 (scanSearch lowQ maxR l1 st) := by
  induction l1 generalizing st with
  | nil => rfl
  | cons x rest ih =>
      rw [List.cons_append, scanSearch, scanSearch]
      by_cases h : st.results.length ≥ maxR
      · simp only [h, if_true]
        exact (scanSearch_full lowQ maxR l2 st h).symm
      · simp only [h, if_false]
        exact ih _

mutual

/-- `search` visits nodes exactly in annotated-preorder, with the global
early stop. -/
theorem searchFiber_scan (lowQ : String) (maxR : Nat) (f : Fiber) (depth : Nat)
    (p : Option String) (st : SearchSt) :
    searchFiber lowQ maxR f depth p st =
      scanSearch lowQ maxR (annPre f depth p) st := by
  match f with
  | .mk tag key ty hk sn alt dur cs =>
    rw [searchFiber, annPre, scanSearch]
    by_cases h : st.results.length ≥ maxR
    · simp [h]
    · simp only [h, if_false]
      rw [searchSiblings_scan]
      rfl

/-- List version of `searchFiber_scan`. -/
theorem searchSiblings_scan (lowQ : String) (maxR : Nat) (l : List Fiber)
    (depth : Nat) (pname : String) (st : SearchSt) :
    searchSiblings lowQ maxR l depth pname st =
      scanSearch lowQ maxR (annPreList l depth (some pname)) st := by
  match l with
  | [] => rfl
  | c :: rest =>
      rw [searchSiblings, annPreList, scanSearch_append]
      by_cases h : st.results.length < maxR
      · simp only [h, if_true]
        rw [searchSiblings_scan lowQ maxR rest depth pname, searchFiber_scan]
      · simp only [h, if_false]
        have h2 : st.results.length ≥ maxR := by omega
        rw [scanSearch_full lowQ maxR _ st h2, scanSearch_full lowQ maxR _ st h2]

end

theorem searchRoots_scan (lowQ : String) (maxR : Nat) (roots : List Fiber)
    (st : SearchSt) :
    searchRoots lowQ maxR roots st =
      scanSearch lowQ maxR (annPreList roots 0 none) st := by
  induction roots generalizing st with
  | nil => rfl
  | cons r rest ih =>
      rw [searchRoots, ih, searchFiber_scan, annPreList, scanSearch_append]

theorem scanSearch_eq_fold (lowQ : String) (maxR : Nat) :
    ∀ (xs : List (Fiber × Nat × Option String)) (st : SearchSt),
      scanSearch lowQ maxR xs st =
        (takeNeeded lowQ xs (maxR - st.results.length)).foldl
          (fun s x => visitOne lowQ x s) st := by
  intro xs
  induction xs with
  | nil => intro st; rfl
  | cons x rest ih =>
      intro st
      rw [scanSearch]
      by_cases h : st.results.length ≥ maxR
      · have hb : maxR - st.results.length = 0 := by omega
        rw [hb]
        simp [h, takeNeeded]
      · obtain ⟨b, hb⟩ : ∃ b, maxR - st.results.length = b + 1 :=
          ⟨maxR - st.results.length - 1, by omega⟩
        rw [hb]
        simp only [h, if_false, takeNeeded, List.foldl_cons]
        rw [ih (visitOne lowQ x st)]
        by_cases hm : matchesQ lowQ x = true
        · have hlen : (visitOne lowQ x st).results.length = st.results.length + 1 := by
            simp [visitOne, hm]
          rw [hlen, hm]
          have hb2 : maxR - (st.results.length + 1) = b := by omega
          rw [hb2]
          simp
        · rw [Bool.not_eq_true] at hm
          have hlen : (visitOne lowQ x st).results.length = st.results.length := by
            simp [visitOne, hm]
          rw [hlen, hm]
          simp only [Bool.false_eq_true, if_false]
          rw [hb]

theorem setAt_eq (l : List Fiber) (i : Nat) (f : Fiber) (h : i ≤ l.length) :
    setAt l i f = l.take i ++ f :: l.drop (i + 1) := by
  rw [setAt]
  by_cases hlt : i < l.length
  · simp [hlt, List.set_eq_take_append_cons_drop]
  · have hi : i = l.length := by omega
    subst hi
    simp

/-- Folding `visitOne` over a visit list: results are appended in visit
order with sequential handles, the index advances by the number of
visits, and the registry is the old one with positions
`i .. i + |ys| - 1` overwritten by the visited fibers. -/
theorem foldVisit_spec (lowQ : String) :
    ∀ (ys : List (Fiber × Nat × Option String)) (res : List SearchResult)
      (i : Nat) (l : List Fiber), i ≤ l.length →
      (ys.foldl (fun s x => visitOne lowQ x s) ⟨res, i, l⟩).results =
        res ++ mkResults lowQ ys i ∧
      (ys.foldl (fun s x => visitOne lowQ x s) ⟨res, i, l⟩).index = i + ys.length ∧
      (ys.foldl (fun s x => visitOne lowQ x s) ⟨res, i, l⟩).fibers =
        l.take i ++ ys.map (fun x => x.1) ++ l.drop (i + ys.length) := by
  intro ys
  induction ys with
  | nil =>
      intro res i l h
      refine ⟨by simp [mkResults], by simp, ?_⟩
      simp [List.take_append_drop]
  | cons y ys ih =>
      intro res i l h
      simp only [List.foldl_cons]
      have hset : setAt l i y.1 = l.take i ++ y.1 :: l.drop (i + 1) :=
        setAt_eq l i y.1 h
      have hsetlen : i + 1 ≤ (setAt l i y.1).length := by
        rw [hset]
        simp
        omega
      have hvisit : visitOne lowQ y ⟨res, i, l⟩ =
          ⟨(if matchesQ lowQ y then
              res ++ [⟨i, getName tagsSearch y.1, typeStrSearch y.1.tag,
                y.2.1, y.2.2, y.1.key⟩]
            else res), i + 1, setAt l i y.1⟩ := rfl
      rw [hvisit]
      obtain ⟨h1, h2, h3⟩ := ih
        (if matchesQ lowQ y then
          res ++ [⟨i, getName tagsSearch y.1, typeStrSearch y.1.tag,
            y.2.1, y.2.2, y.1.key⟩]
        else res) (i + 1) (setAt l i y.1) hsetlen
      refine ⟨?_, ?_, ?_⟩
      · rw [h1, mkResults]
        by_cases hm : matchesQ lowQ y = true
        · simp [hm]
        · rw [Bool.not_eq_true] at hm
          simp [hm]
      · rw [h2, List.length_cons]
        omega
      · rw [h3, hset]
        have hti : (l.take i).length = i := by simp; omega
        rw [List.take_append_eq_append_take, List.take_take, hti]
        have hmin : min (i + 1) i = i := by omega
        rw [hmin]
        have h1s : i + 1 - i = 1 := by omega
        rw [h1s]
        rw [List.drop_append_eq_append_drop, hti]
        have hdt : (l.take i).drop (i + 1 + ys.length) = [] := by
          apply List.drop_eq_nil_of_le
          simp
          omega
        rw [hdt]
        have hds : i + 1 + ys.length - i = 1 + ys.length := by omega
        rw [hds]
        have hdrop2 : List.drop (1 + ys.length) (y.1 :: l.drop (i + 1)) =
            l.drop (i + (ys.length + 1)) := by
          rw [Nat.add_comm 1 ys.length, List.drop_succ_cons, List.drop_drop]
          congr 1
          omega
        rw [hdrop2]
        simp [List.append_assoc]
  
theorem takeNeeded_prefix (lowQ : String) :
    ∀ (xs : List (Fiber × Nat × Option String)) (b : Nat),
      List.IsPrefix (takeNeeded lowQ xs b) xs := by
  intro xs
  induction xs with
  | nil => intro b; exact ⟨[], rfl⟩
  | cons x rest ih =>
      intro b
      match b with
      | 0 => exact ⟨x :: rest, rfl⟩
      | b + 1 =>
          obtain ⟨t, ht⟩ := ih (if matchesQ lowQ x then b else b + 1)
          exact ⟨t, by rw [takeNeeded, List.cons_append, ht]⟩

theorem takeNeeded_filter_length (lowQ : String) :
    ∀ (xs : List (Fiber × Nat × Option String)) (b : Nat),
      ((takeNeeded lowQ xs b).filter (matchesQ lowQ)).length =
        min b ((xs.filter (matchesQ lowQ)).length) := by
  intro xs
  induction xs with
  | nil => intro b; simp [takeNeeded]
  | cons x rest ih =>
      intro b
      match b with
      | 0 => simp [takeNeeded]
      | b + 1 =>
          rw [takeNeeded]
          by_cases hm : matchesQ lowQ x = true
          · rw [if_pos hm]
            rw [List.filter_cons, List.filter_cons]
            simp only [hm, if_true]
            rw [List.length_cons, List.length_cons, ih b]
            omega
          · rw [Bool.not_eq_true] at hm
            rw [if_neg (by simp [hm])]
            rw [List.filter_cons, List.filter_cons]
            simp only [hm, Bool.false_eq_true, if_false]
            exact ih (b + 1)

theorem mkResults_length (lowQ : String) :
    ∀ (ys : List (Fiber × Nat × Option String)) (i : Nat),
      (mkResults lowQ ys i).length = (ys.filter (matchesQ lowQ)).length := by
  intro ys
  induction ys with
  | nil => intro i; rfl
  | cons y rest ih =>
      intro i
      rw [mkResults, List.filter_cons, List.length_append, ih (i + 1)]
      by_cases hm : matchesQ lowQ y = true
      · simp [hm]
        omega
      · rw [Bool.not_eq_true] at hm
        simp [hm]

theorem mkResults_match (lowQ : String) :
    ∀ (ys : List (Fiber × Nat × Option String)) (i : Nat),
      ∀ r ∈ mkResults lowQ ys i, strIncludes (lowerStr r.name) lowQ = true := by
  intro ys
  induction ys with
  | nil => intro i r hr; cases hr
  | cons y rest ih =>
      intro i r hr
      rw [mkResults] at hr
      rcases List.mem_append.mp hr with h1 | h2
      · by_cases hm : matchesQ lowQ y = true
        · rw [if_pos hm] at h1
          have : r = ⟨i, getName tagsSearch y.1, typeStrSearch y.1.tag,
              y.2.1, y.2.2, y.1.key⟩ := by simpa using h1
          subst this
          exact hm
        · rw [Bool.not_eq_true] at hm
          rw [if_neg (by simp [hm])] at h1
          cases h1
      · exact ih (i + 1) r h2

/-- What one `searchComponents` call computes: results read off the
visited prefix, and the registry equal to the visited fibers written
over the front of the incoming registry, whose tail survives. -/
theorem searchComponents_run (query : String) (maxR : Nat) (roots : List Fiber)
    (reg : Option (List Fiber)) :
    (searchComponents query maxR roots reg).1 =
      mkResults (lowerStr query)
        (takeNeeded (lowerStr query) (annPreList roots 0 none) maxR) 0 ∧
    (searchComponents query maxR roots reg).2 =
      some ((takeNeeded (lowerStr query) (annPreList roots 0 none) maxR).map
          (fun x => x.1) ++
        (reg.getD []).drop
          (takeNeeded (lowerStr query) (annPreList roots 0 none) maxR).length) := by
  have hrun : searchRoots (lowerStr query) maxR roots ⟨[], 0, reg.getD []⟩ =
      (takeNeeded (lowerStr query) (annPreList roots 0 none) maxR).foldl
        (fun s x => visitOne (lowerStr query) x s) ⟨[], 0, reg.getD []⟩ := by
    rw [searchRoots_scan, scanSearch_eq_fold]
    rfl
  obtain ⟨h1, _h2, h3⟩ := foldVisit_spec (lowerStr query)
    (takeNeeded (lowerStr query) (annPreList roots 0 none) maxR) [] 0 (reg.getD [])
    (by omega)
  constructor
  · show (searchRoots (lowerStr query) maxR roots ⟨[], 0, reg.getD []⟩).results = _
    rw [hrun, h1]
    simp
  · show some (searchRoots (lowerStr query) maxR roots ⟨[], 0, reg.getD []⟩).fibers = _
    rw [hrun, h3]
    simp

/-- C7: `searchComponents` returns at most `maxResults` results; every
returned result's resolved display name contains the query as a
case-insensitive substring; the number of results is exactly
`min maxResults (number of matching nodes in depth-first order)` — so
exactly `maxResults` results whenever more than `maxResults` matches
exist; and the traversal terminates early: the nodes visited and
registered are exactly the shortest depth-first prefix containing
`maxResults` matches (`takeNeeded`), a prefix of the full visit order,
and the results are read off that prefix alone. -/
theorem searchComponents_bounded (query : String) (maxResults : Nat)
    (roots : List Fiber) (reg : Option (List Fiber)) :
    (searchComponents query maxResults roots reg).1.length ≤ maxResults ∧
    (∀ r ∈ (searchComponents query maxResults roots reg).1,
       strIncludes (lowerStr r.name) (lowerStr query) = true) ∧
    (searchComponents query maxResults roots reg).1.length =
      min maxResults
        (((annPreList roots 0 none).filter (matchesQ (lowerStr query))).length) ∧
    List.IsPrefix (takeNeeded (lowerStr query) (annPreList roots 0 none) maxResults)
      (annPreList roots 0 none) ∧
    (searchComponents query maxResults roots reg).1 =
      mkResults (lowerStr query)
        (takeNeeded (lowerStr query) (annPreList roots 0 none) maxResults) 0 ∧
    (searchComponents query maxResults roots reg).2 =
      some ((takeNeeded (lowerStr query) (annPreList roots 0 none) maxResults).map
          (fun x => x.1) ++
        (reg.getD []).drop
          (takeNeeded (lowerStr query) (annPreList roots 0 none) maxResults).length) := by
  obtain ⟨hres, hreg⟩ := searchComponents_run query maxResults roots reg
  have hlen : (searchComponents query maxResults roots reg).1.length =
      min maxResults
        (((annPreList roots 0 none).filter (matchesQ (lowerStr query))).length) := by
    rw [hres, mkResults_length, takeNeeded_filter_length]
  refine ⟨?_, ?_, hlen, takeNeeded_prefix _ _ _, hres, hreg⟩
  · rw [hlen]
    omega
  · intro r hr
    rw [hres] at hr
    exact mkResults_match (lowerStr query) _ 0 r hr

/-- The search result for `demoItem` when searching `"item"` in the
demo forest: handle 3 (after Root, App, div), depth 3, parent `div`. -/
def demoItemResult : SearchResult :=
  ⟨3, "Item", "FunctionComponent", 3, some "div", none⟩

theorem searchComponents_bounded_witness :
    (searchComponents "item" 10 [demoRoot] none).1.length ≤ 10 ∧
    demoItemResult ∈ (searchComponents "item" 10 [demoRoot] none).1 ∧
    strIncludes (lowerStr demoItemResult.name) (lowerStr "item") = true := by
  have hmem : demoItemResult ∈ (searchComponents "item" 10 [demoRoot] none).1 := by
    show demoItemResult ∈ [demoItemResult]
    simp
  exact ⟨(searchComponents_bounded "item" 10 [demoRoot] none).1, hmem,
    (searchComponents_bounded "item" 10 [demoRoot] none).2.1 demoItemResult hmem⟩

/-- C4 (counterexample to the claim as stated): after
`getComponentTree` registers handles 0,1,2 for App, Item, Header, a
`searchComponents "app" 1` call visits only Root and App (early stop at
1 result), overwriting registry slots 0 and 1 — but slot 2 survives:
the Tree Walker handle 2 still resolves to the very fiber the tree
walk registered, so the registry is not rebuilt wholesale and prior
handles are not all invalidated. -/
theorem searchComponents_registry_counterexample :
    resolveHandle (getComponentTree 20 false [demoRoot] none).2 2 = some demoHeader ∧
    resolveHandle (searchComponents "app" 1 [demoRoot]
        (getComponentTree 20 false [demoRoot] none).2).2 2 = some demoHeader ∧
    (searchComponents "app" 1 [demoRoot]
        (getComponentTree 20 false [demoRoot] none).2).1.length = 1 :=
  ⟨rfl, rfl, rfl⟩

/-- C4 (amended): `searchComponents` keeps an existing registry rather
than rebuilding it: it overwrites entries sequentially from index 0,
one per visited node, and every entry at an index at or past the
number of visited nodes is untouched — a handle from a prior Tree
Walker call at such an index still resolves to the fiber that call
registered. -/
theorem searchComponents_registry (query : String) (maxResults : Nat)
    (roots : List Fiber) (old : List Fiber) :
    (searchComponents query maxResults roots (some old)).2 =
      some ((takeNeeded (lowerStr query) (annPreList roots 0 none) maxResults).map
          (fun x => x.1) ++
        old.drop
          (takeNeeded (lowerStr query) (annPreList roots 0 none) maxResults).length) ∧
    ∀ i, (takeNeeded (lowerStr query) (annPreList roots 0 none) maxResults).length ≤ i →
      resolveHandle (searchComponents query maxResults roots (some old)).2 i =
        old[i]? := by
  obtain ⟨_hres, hreg⟩ := searchComponents_run query maxResults roots (some old)
  have hreg2 : (searchComponents query maxResults roots (some old)).2 =
      some ((takeNeeded (lowerStr query) (annPreList roots 0 none) maxResults).map
          (fun x => x.1) ++
        old.drop
          (takeNeeded (lowerStr query) (annPreList roots 0 none) maxResults).length) := by
    simpa using hreg
  refine ⟨hreg2, ?_⟩
  intro i hi
  rw [hreg2, resolveHandle]
  rw [List.getElem?_append_right (by simpa using hi)]
  rw [List.getElem?_drop]
  congr 1
  simp only [List.length_map]
  omega

theorem searchComponents_registry_witness :
    (takeNeeded (lowerStr "app") (annPreList [demoRoot] 0 none) 1).length ≤ 2 ∧
    resolveHandle (searchComponents "app" 1 [demoRoot]
        (some [demoApp, demoItem, demoHeader])).2 2 =
      [demoApp, demoItem, demoHeader][2]? :=
  ⟨by decide,
   (searchComponents_registry "app" 1 [demoRoot] [demoApp, demoItem, demoHeader]).2 2
     (by decide)⟩

-- ── Mutation Dispatcher (`modifyState`, lines 417–473) ──────────────────────

/-- The structured result every `modifyState` call returns. -/
structure MResult where
  success : Bool
  error : Option String
deriving Repr, DecidableEq

/-- The class-component guard `fiber.tag === 1 && fiber.stateNode &&
typeof fiber.stateNode.setState === "function"`, yielding the setState
capability when it holds. -/
def classSetter (f : Fiber) : Option DispatchBeh :=
  if f.tag = 1 then f.stateNode.bind StateNode.setState else none

/-- Invoking a target-owned update function inside `try/catch`: success,
or the caught exception reported with the target's message. -/
def applyBeh : DispatchBeh → MResult
  | .ok => ⟨true, none⟩
  | .throws m => ⟨false, some m⟩

/-- The dispatch logic applied to a resolved fiber (the body of
`modifyState` past the registry lookup).  Walking the `memoizedState`
chain to `hookIdx` with a null check is the `get?` lookup; the
compound guard `state.queue && typeof state.queue.dispatch ===
"function"` is the `bind` over the queue's dispatch capability. -/
def modifyFiber (f : Fiber) (hookIdx : Nat) : MResult × Bool :=
  match classSetter f with
  | some beh => (applyBeh beh, true)
  | none =>
    if f.tag = 0 ∨ f.tag = 10 ∨ f.tag = 11 then
      match f.hooks[hookIdx]? with
      | none =>
          (⟨false, some ("Hook at index " ++ toString hookIdx ++ " not found.")⟩, false)
      | some hrec =>
          match hrec.queue.bind Queue.dispatch with
          | some beh => (applyBeh beh, true)
          | none =>
              (⟨false,
                some "Hook does not have a dispatch function (not useState/useReducer)."⟩,
               false)
    else (⟨false, some "Component is not a class or function component."⟩, false)

/-- `modifyState(page, fiberIndex, hookIndex, value)`.  The Boolean in
the returned pair records whether a target-owned update function (a
`setState` or a hook `dispatch`) was invoked — the call's only channel
of effect on target state.  The new value itself does not influence
which code path runs. -/
def modifyState (idx hookIdx : Nat) (_value : JSVal) (reg : Option (List Fiber)) :
    MResult × Bool :=
  match resolveHandle reg idx with
  | none => (⟨false, some "Fiber not found. Run get_component_tree first."⟩, false)
  | some f => modifyFiber f hookIdx

/-- The update function `modifyState` reaches for a fiber, if any: the
class `setState` when the class guard holds, else the dispatch of the
hook record at `hookIdx` of a function-component-family fiber. -/
def reachedUpdater (f : Fiber) (hookIdx : Nat) : Option DispatchBeh :=
  match classSetter f with
  | some beh => some beh
  | none =>
      if f.tag = 0 ∨ f.tag = 10 ∨ f.tag = 11 then
        f.hooks[hookIdx]?.bind (fun r => r.queue.bind Queue.dispatch)
      else none

/-- Either `modifyFiber` reaches an update function and invokes it, or
it reaches none, invokes nothing and reports a failure. -/
theorem modifyFiber_cases (f : Fiber) (hookIdx : Nat) :
    (∃ beh, reachedUpdater f hookIdx = some beh ∧
       modifyFiber f hookIdx = (applyBeh beh, true)) ∨
    (reachedUpdater f hookIdx = none ∧ (modifyFiber f hookIdx).2 = false ∧
       (modifyFiber f hookIdx).1.success = false) := by
  cases hcs : classSetter f with
  | some beh =>
      exact Or.inl ⟨beh, by simp [reachedUpdater, hcs], by simp [modifyFiber, hcs]⟩
  | none =>
      by_cases ht : f.tag = 0 ∨ f.tag = 10 ∨ f.tag = 11
      · cases hget : f.hooks[hookIdx]? with
        | none =>
            refine Or.inr ⟨?_, ?_, ?_⟩ <;>
              simp [reachedUpdater, modifyFiber, hcs, ht, hget]
        | some hrec =>
            cases hbd : hrec.queue.bind Queue.dispatch with
            | none =>
                refine Or.inr ⟨?_, ?_, ?_⟩ <;>
                  simp [reachedUpdater, modifyFiber, hcs, ht, hget, hbd]
            | some beh =>
                refine Or.inl ⟨beh, ?_, ?_⟩ <;>
                  simp [reachedUpdater, modifyFiber, hcs, ht, hget, hbd]
      · refine Or.inr ⟨?_, ?_, ?_⟩ <;>
          simp [reachedUpdater, modifyFiber, hcs, ht]

/-- C5: `modifyState` is a total function into structured results (it
never throws).  A handle that does not resolve yields the
"Fiber not found" failure with no update function invoked (hence no
change to target state); on a function-component-family fiber, a hook
chain with no record at the given index yields the hook-not-found
failure; a reached record without a dispatch capability yields the
not-a-state/reducer-hook failure; a fiber that is neither class nor
function-component-family yields the not-a-stateful-component failure;
and when the reached `setState`/`dispatch` itself throws, the
exception is caught and reported as a failure carrying the target's
message (the update function having been invoked). -/
theorem modifyState_failures (reg : Option (List Fiber)) (idx hookIdx : Nat) (v : JSVal) :
    (resolveHandle reg idx = none →
      modifyState idx hookIdx v reg =
        (⟨false, some "Fiber not found. Run get_component_tree first."⟩, false)) ∧
    ∀ f, resolveHandle reg idx = some f →
      ((f.tag = 0 ∨ f.tag = 10 ∨ f.tag = 11) → f.hooks.length ≤ hookIdx →
        modifyState idx hookIdx v reg =
          (⟨false, some ("Hook at index " ++ toString hookIdx ++ " not found.")⟩, false)) ∧
      ((f.tag = 0 ∨ f.tag = 10 ∨ f.tag = 11) →
        ∀ hrec, f.hooks[hookIdx]? = some hrec →
          hrec.queue.bind Queue.dispatch = none →
          modifyState idx hookIdx v reg =
            (⟨false,
              some "Hook does not have a dispatch function (not useState/useReducer)."⟩,
             false)) ∧
      ((f.tag ≠ 0 ∧ f.tag ≠ 1 ∧ f.tag ≠ 10 ∧ f.tag ≠ 11) →
        modifyState idx hookIdx v reg =
          (⟨false, some "Component is not a class or function component."⟩, false)) ∧
      (∀ m, reachedUpdater f hookIdx = some (.throws m) →
        modifyState idx hookIdx v reg = (⟨false, some m⟩, true)) := by
  constructor
  · intro h
    rw [modifyState, h]
  · intro f hf
    have hms : modifyState idx hookIdx v reg = modifyFiber f hookIdx := by
      rw [modifyState, hf]
    have hcs0 : (f.tag = 0 ∨ f.tag = 10 ∨ f.tag = 11) → classSetter f = none := by
      intro ht
      rw [classSetter, if_neg]
      rcases ht with h | h | h <;> omega
    refine ⟨?_, ?_, ?_, ?_⟩
    · intro ht hlen
      rw [hms]
      simp [modifyFiber, hcs0 ht, ht, List.getElem?_eq_none hlen]
    · intro ht hrec hget hnd
      rw [hms]
      simp [modifyFiber, hcs0 ht, ht, hget, hnd]
    · intro ht
      have hcs : classSetter f = none := by
        rw [classSetter, if_neg ht.2.1]
      have ht2 : ¬ (f.tag = 0 ∨ f.tag = 10 ∨ f.tag = 11) := by
        intro hcontra
        rcases hcontra with h | h | h
        · exact ht.1 h
        · exact ht.2.2.1 h
        · exact ht.2.2.2 h
      rw [hms]
      simp [modifyFiber, hcs, ht2]
    · intro m hru
      rcases modifyFiber_cases f hookIdx with ⟨beh, hru2, heq⟩ | ⟨hru2, _, _⟩
      · rw [hru2] at hru
        cases hru
        rw [hms, heq]
        rfl
      · rw [hru2] at hru
        cases hru

/-- Function-component fiber whose single state hook's dispatch throws
with message `"boom"`. -/
def demoThrowing : Fiber :=
  .mk 0 none (.objType (some "Boom") none none none)
    [⟨some ⟨none, some (.throws "boom")⟩, .num 0⟩] none false 0 []

theorem modifyState_failures_witness :
    (resolveHandle (some ([] : List Fiber)) 999999 = none ∧
      modifyState 999999 0 (.num 1) (some []) =
        (⟨false, some "Fiber not found. Run get_component_tree first."⟩, false)) ∧
    (resolveHandle (some [demoThrowing]) 0 = some demoThrowing ∧
      modifyState 0 0 (.num 1) (some [demoThrowing]) = (⟨false, some "boom"⟩, true)) :=
  ⟨⟨rfl, (modifyState_failures (some []) 999999 0 (.num 1)).1 rfl⟩,
   ⟨rfl, ((modifyState_failures (some [demoThrowing]) 0 0 (.num 1)).2 demoThrowing
      rfl).2.2.2 "boom" rfl⟩⟩

/-- C10: mutation failure is atomic before dispatch: when the handle
does not resolve, or the resolved fiber offers no reachable update
function (missing hook record, record without dispatch capability, or
a non-stateful node kind), no target `setState`/`dispatch` is invoked;
a call that invoked no update function always reports failure, leaving
target state unchanged; and the only way a call that did invoke a
target update function reports failure is that this function itself
threw, the failure carrying exactly its message. -/
theorem modifyState_atomic (reg : Option (List Fiber)) (idx hookIdx : Nat) (v : JSVal) :
    (resolveHandle reg idx = none → (modifyState idx hookIdx v reg).2 = false) ∧
    (∀ f, resolveHandle reg idx = some f → reachedUpdater f hookIdx = none →
      (modifyState idx hookIdx v reg).2 = false) ∧
    ((modifyState idx hookIdx v reg).2 = false →
      (modifyState idx hookIdx v reg).1.success = false) ∧
    ((modifyState idx hookIdx v reg).2 = true →
      (modifyState idx hookIdx v reg).1.success = false →
      ∃ f m, resolveHandle reg idx = some f ∧
        reachedUpdater f hookIdx = some (.throws m) ∧
        (modifyState idx hookIdx v reg).1.error = some m) := by
  cases hr : resolveHandle reg idx with
  | none =>
      have hms : modifyState idx hookIdx v reg =
          (⟨false, some "Fiber not found. Run get_component_tree first."⟩, false) := by
        rw [modifyState, hr]
      refine ⟨fun _ => by rw [hms], ?_, ?_, ?_⟩
      · intro f hf
        exact Option.noConfusion hf
      · intro _
        rw [hms]
      · intro h2 _
        rw [hms] at h2
        cases h2
  | some f =>
      have hms : modifyState idx hookIdx v reg = modifyFiber f hookIdx := by
        rw [modifyState, hr]
      refine ⟨?_, ?_, ?_, ?_⟩
      · intro h
        exact Option.noConfusion h
      · intro g hg hru
        injection hg with hg2
        subst hg2
        rcases modifyFiber_cases f hookIdx with ⟨beh, hru2, _⟩ | ⟨_, h2, _⟩
        · rw [hru] at hru2
          cases hru2
        · rw [hms]
          exact h2
      · intro hinv
        rw [hms] at hinv ⊢
        rcases modifyFiber_cases f hookIdx with ⟨beh, _, heq⟩ | ⟨_, _, h3⟩
        · rw [heq] at hinv
          cases beh with
          | ok => cases hinv
          | throws m => rw [heq]; rfl
        · exact h3
      · intro hinv hfail
        rw [hms] at hinv hfail ⊢
        rcases modifyFiber_cases f hookIdx with ⟨beh, hru2, heq⟩ | ⟨_, h2, _⟩
        · cases beh with
          | ok =>
              rw [heq] at hfail
              cases hfail
          | throws m => exact ⟨f, m, rfl, hru2, by rw [heq]; rfl⟩
        · rw [h2] at hinv
          cases hinv

theorem modifyState_atomic_witness :
    (resolveHandle (some ([] : List Fiber)) 999999 = none ∧
      (modifyState 999999 3 (.num 1) (some [])).2 = false) ∧
    (resolveHandle (some [demoHeader]) 0 = some demoHeader ∧
      reachedUpdater demoHeader 5 = none ∧
      (modifyState 0 5 (.num 1) (some [demoHeader])).2 = false) :=
  ⟨⟨rfl, (modifyState_atomic (some []) 999999 3 (.num 1)).1 rfl⟩,
   ⟨rfl, rfl, (modifyState_atomic (some [demoHeader]) 0 5 (.num 1)).2.1 demoHeader rfl rfl⟩⟩

-- ── Auxiliary-State Decoder (`extractHooks` lines 250–283,
--    `extractClassState` lines 286–291) ────────────────────────────────────

/-- One decoded hook fact. -/
structure HookInfo where
  index : Nat
  type : String
  value : SerVal

/-- JavaScript truthiness. -/
def jsTruthy : JSVal → Bool
  | .null | .undefVal => false
  | .bool b => b
  | .num n => n != 0
  | .str s => s != ""
  | .func _ => true
  | .sym _ => true
  | .ref _ => true

/-- `typeof v === "object"` (true for `null` and all heap references). -/
def typeofObject : JSVal → Bool
  | .null => true
  | .ref _ => true
  | _ => false

/-- `"fld" in v`: property presence on a plain object (a throwing getter
still counts as present; arrays, DOM elements and React elements carry
neither `destroy` nor `current`). -/
def hasField (h : Heap) (v : JSVal) (fld : String) : Bool :=
  match v with
  | .ref a =>
      match h a with
      | .obj fields => fields.any (fun kv => kv.1 == fld)
      | _ => false
  | _ => false

/-- Property read `v.fld` on a plain object, `none` when absent.  A
throwing getter is modelled as absent: the decoder performs these
reads outside any `try/catch` and no claim exercises a throwing getter
on a hook record. -/
def fieldOf (h : Heap) (v : JSVal) (fld : String) : Option JSVal :=
  match v with
  | .ref a =>
      match h a with
      | .obj fields =>
          match fields.find? (fun kv => kv.1 == fld) with
          | some (_, .val w) => some w
          | _ => none
      | _ => none
  | _ => none

/-- `Array.isArray(v) && v.length === 2`. -/
def isArrayLen2 (h : Heap) (v : JSVal) : Bool :=
  match v with
  | .ref a =>
      match h a with
      | .arr xs => xs.length == 2
      | _ => false
  | _ => false

/-- `v[0]` for an array value. -/
def firstElem (h : Heap) (v : JSVal) : JSVal :=
  match v with
  | .ref a =>
      match h a with
      | .arr xs => xs.getD 0 .undefVal
      | _ => .undefVal
  | _ => .undefVal

/-- Classification of one auxiliary record, first match wins (spec
§4.3): an update queue makes it state/reducer, split on the queue's
registered reducer being named `basicStateReducer`; else an object
with a `destroy` field is an effect whose value is the serialized deps
when truthy, null otherwise; else an object with a `current` field is
a ref; else a two-element array is memo/callback over its first
element; else unknown with the raw value serialized. -/
def specClassify (h : Heap) (i : Nat) (r : HookRec) : HookInfo :=
  match r.queue with
  | some q =>
      ⟨i, if q.lastRenderedReducerName = some "basicStateReducer"
          then "useState" else "useReducer",
        safeSerialize h r.memoizedState⟩
  | none =>
      if jsTruthy r.memoizedState && typeofObject r.memoizedState &&
          hasField h r.memoizedState "destroy" then
        ⟨i, "useEffect",
          if jsTruthy ((fieldOf h r.memoizedState "deps").getD .undefVal) then
            safeSerialize h ((fieldOf h r.memoizedState "deps").getD .undefVal)
          else .null⟩
      else if jsTruthy r.memoizedState && typeofObject r.memoizedState &&
          hasField h r.memoizedState "current" then
        ⟨i, "useRef", safeSerialize h ((fieldOf h r.memoizedState "current").getD .undefVal)⟩
      else if isArrayLen2 h r.memoizedState then
        ⟨i, "useMemo/useCallback", safeSerialize h (firstElem h r.memoizedState)⟩
      else ⟨i, "unknown", safeSerialize h r.memoizedState⟩

/-- The `while (state) { ... state = state.next; i++ }` loop of
`extractHooks`, classifying each record of the chain in order. -/
def hookLoop (h : Heap) : List HookRec → Nat → List HookInfo
  | [], _ => []
  | r :: rest, i => specClassify h i r :: hookLoop h rest (i + 1)

/-- `extractHooks(fiber)`: empty for any fiber that is not of the
function-component family (tags 0, 10, 11), else the classified
chain. -/
def extractHooks (h : Heap) (f : Fiber) : List HookInfo :=
  if f.tag ≠ 0 ∧ f.tag ≠ 10 ∧ f.tag ≠ 11 then [] else hookLoop h f.hooks 0

/-- `extractClassState(fiber)`: the serialized `stateNode.state` blob of
a class component, `null` otherwise. -/
def extractClassState (h : Heap) (f : Fiber) : SerVal :=
  if f.tag = 1 then
    match f.stateNode with
    | some sn => safeSerialize h sn.state
    | none => .null
  else .null

theorem hookLoop_map (h : Heap) :
    ∀ (l : List HookRec) (i : Nat),
      hookLoop h l i = (List.enumFrom i l).map (fun p => specClassify h p.1 p.2) := by
  intro l
  induction l with
  | nil => intro i; rfl
  | cons r rest ih =>
      intro i
      rw [hookLoop, List.enumFrom, List.map_cons, ih (i + 1)]

/-- C6: the Auxiliary-State Decoder classifies each record of a
function-component-family fiber's chain by the fixed first-match-wins
priority of `specClassify` (queue → state/reducer split on the
registered reducer name `basicStateReducer`; `destroy` field → effect
with serialized deps or null; `current` field → ref; two-element array
→ memo/callback on the first element; otherwise unknown over the raw
serialized value), in chain order with indices from 0; any other fiber
kind yields an empty list; and a class-component fiber's state blob is
read from its component instance and serialized by the Safe
Serializer, `null` when there is no instance or the fiber is not a
class component. -/
theorem extractHooks_spec (h : Heap) (f : Fiber) :
    ((f.tag = 0 ∨ f.tag = 10 ∨ f.tag = 11) →
      extractHooks h f = f.hooks.enum.map (fun p => specClassify h p.1 p.2)) ∧
    (¬ (f.tag = 0 ∨ f.tag = 10 ∨ f.tag = 11) → extractHooks h f = []) ∧
    (f.tag = 1 → ∀ sn, f.stateNode = some sn →
      extractClassState h f = safeSerialize h sn.state) ∧
    (f.tag ≠ 1 → extractClassState h f = .null) := by
  refine ⟨?_, ?_, ?_, ?_⟩
  · intro ht
    have hc : ¬ (f.tag ≠ 0 ∧ f.tag ≠ 10 ∧ f.tag ≠ 11) := by
      rcases ht with ht | ht | ht <;> simp [ht]
    rw [extractHooks, if_neg hc, hookLoop_map]
    rfl
  · intro ht
    rw [extractHooks, if_pos]
    refine ⟨?_, ?_, ?_⟩ <;> intro hc <;> exact ht (by simp [hc])
  · intro ht sn hsn
    rw [extractClassState, if_pos ht, hsn]
  · intro ht
    rw [extractClassState, if_neg ht]

/-- A heap for the decoder witness: address 0 holds an effect record
(`destroy` + `deps`), address 1 the deps array `[1]`. -/
def effectHeap : Heap := fun a =>
  if a = 0 then .obj [("destroy", .val (.func "cleanup")), ("deps", .val (.ref 1))]
  else if a = 1 then .arr [.num 1]
  else .obj []

/-- A function component with a `useState` hook (value 5) followed by a
`useEffect` hook whose record lives at heap address 0. -/
def demoHooked : Fiber :=
  .mk 0 none (.objType (some "WithHooks") none none none)
    [⟨some ⟨some "basicStateReducer", some .ok⟩, .num 5⟩,
     ⟨none, .ref 0⟩]
    none false 0 []

/-- A class component whose instance holds the state blob `7`. -/
def demoClass : Fiber :=
  .mk 1 none (.objType (some "Klass") none none none)
    [] (some ⟨.num 7, some .ok⟩) false 0 []

theorem extractHooks_spec_witness :
    (demoHooked.tag = 0 ∨ demoHooked.tag = 10 ∨ demoHooked.tag = 11) ∧
    extractHooks effectHeap demoHooked =
      demoHooked.hooks.enum.map (fun p => specClassify effectHeap p.1 p.2) ∧
    extractHooks effectHeap demoHooked =
      [⟨0, "useState", .num 5⟩, ⟨1, "useEffect", .arr [.num 1]⟩] ∧
    demoClass.tag = 1 ∧ demoClass.stateNode = some ⟨.num 7, some .ok⟩ ∧
    extractClassState effectHeap demoClass = .num 7 :=
  ⟨Or.inl rfl,
   (extractHooks_spec effectHeap demoHooked).1 (Or.inl rfl),
   rfl, rfl, rfl,
   by rw [(extractHooks_spec effectHeap demoClass).2.2.1 rfl ⟨.num 7, some .ok⟩ rfl]; rfl⟩

-- ── Commit-Shim Profiler (`startProfiler` lines 477–518,
--    `stopProfiler` lines 520–558) ─────────────────────────────────────────

/-- One per-name accumulator of `__RDM_PROFILER_DATA__`. -/
structure PEntry where
  renderCount : Nat
  totalDuration : ℚ
deriving Repr, DecidableEq

/-- `__RDM_PROFILER_DATA__`: a string-keyed record, keys in insertion
order (as JavaScript object keys are). -/
abbrev ProfData : Type := List (String × PEntry)

/-- `data[name]` lookup. -/
def lookupEntry (d : ProfData) (name : String) : Option PEntry :=
  (d.find? (fun kv => kv.1 == name)).map (fun kv => kv.2)

/-- `data[name] = e`: overwrite in place, or append a fresh key. -/
def setEntry : ProfData → String → PEntry → ProfData
  | [], name, e => [(name, e)]
  | kv :: rest, name, e =>
      if kv.1 == name then (kv.1, e) :: rest else kv :: setEntry rest name e

/-- The wrapper's per-fiber accounting: create a zero entry when absent,
increment `renderCount`, and add `actualDuration` only when truthy
(`if (fiber.actualDuration)`), so its absence degrades durations to
zero without failing the count. -/
def bumpEntry (d : ProfData) (name : String) (dur : ℚ) : ProfData :=
  let cur := (lookupEntry d name).getD ⟨0, 0⟩
  setEntry d name
    ⟨cur.renderCount + 1,
     if dur ≠ 0 then cur.totalDuration + dur else cur.totalDuration⟩

/-- `fiber.type?.displayName ?? fiber.type?.name ?? "Anonymous"` — the
profiler's name resolution (no string-type or `render` fallback,
unlike `getName`). -/
def profName (f : Fiber) : String :=
  match f.tyInfo with
  | .objType d n _ _ => d.getD (n.getD "Anonymous")
  | _ => "Anonymous"

/-- `(fiber.tag === 0 || fiber.tag === 1) && fiber.alternate`: the
fibers the wrapper counts. -/
def profFilter (f : Fiber) : Bool :=
  ((f.tag == 0) || (f.tag == 1)) && f.alternate

mutual

/-- The wrapper's `walk(fiber)` (lines 491–509). -/
def profWalk (f : Fiber) (d : ProfData) : ProfData :=
  match f with
  | .mk tag key ty hk sn alt dur cs =>
      let d1 := if ((tag == 0) || (tag == 1)) && alt then
          bumpEntry d (profName (.mk tag key ty hk sn alt dur cs)) dur
        else d
      profWalkList cs d1

def profWalkList : List Fiber → ProfData → ProfData
  | [], d => d
  | c :: rest, d => profWalkList rest (profWalk c d)

end

/-- The profiler-relevant global state.  `data` is the session data
(`__RDM_PROFILER_DATA__`).  `savedOriginal` is the
`__rdm_original_onCommitFiberRoot` slot: `none` when the property is
absent (never assigned, or deleted by a restore), `some b` when it is
present and holds a callback value whose truthiness — equivalently,
for the hook's commit slot, being a function — is `b` (assigning a
hook with no `onCommitFiberRoot` stores `undefined`: `some false`).
`patched` says the hook's `onCommitFiberRoot` currently is the
engine's wrapper; `originalIsFn` says the hook's pre-wrapper commit
callback is a function; `originalCalls` counts its invocations. -/
structure ProfSt where
  data : Option ProfData
  savedOriginal : Option Bool
  patched : Bool
  originalIsFn : Bool
  originalCalls : Nat

/-- `startProfiler(page)`: reset the session data, assign the current
commit callback — truthy or not — into the
`__rdm_original_onCommitFiberRoot` slot, and install the wrapper. -/
def startProfiler (g : ProfSt) : ProfSt :=
  { g with data := some [], savedOriginal := some g.originalIsFn, patched := true }

/-- One commit of `root` on the target's own timeline: with the wrapper
installed, the committed tree is walked into the session data and the
call is forwarded to the original callback (when it is a function);
otherwise the original callback runs alone. -/
def commitRoot (root : Fiber) (g : ProfSt) : ProfSt :=
  if g.patched then
    { g with data := g.data.map (profWalk root),
             originalCalls := g.originalCalls + (if g.originalIsFn then 1 else 0) }
  else
    { g with originalCalls := g.originalCalls + (if g.originalIsFn then 1 else 0) }

def runCommits : List Fiber → ProfSt → ProfSt
  | [], g => g
  | r :: rest, g => runCommits rest (commitRoot r g)

/-- One entry of `stopProfiler`'s result list. -/
structure ProfResult where
  componentName : String
  renderCount : Nat
  totalDuration : ℚ
  avgDuration : ℚ
deriving Repr, DecidableEq

/-- `Math.round(q * 100) / 100` — rounding to two decimal places. -/
def round2 (q : ℚ) : ℚ := ((⌊q * 100 + 1 / 2⌋ : ℤ) : ℚ) / 100

/-- The result row built from one accumulator entry. -/
def entryResult (kv : String × PEntry) : ProfResult :=
  ⟨kv.1, kv.2.renderCount, round2 kv.2.totalDuration,
   if kv.2.renderCount > 0 then
     round2 (kv.2.totalDuration / (kv.2.renderCount : ℚ))
   else 0⟩

/-- `stopProfiler(page)`: the guard
`if (hook && hook.__rdm_original_onCommitFiberRoot)` restores the
original callback and deletes the saved slot only when the saved value
is truthy — a falsy saved original (the hook had no commit callback
when `startProfiler` ran) leaves the wrapper installed.  Then read the
session data out (an absent session reads as empty), build one row per
accumulator entry, sort by `renderCount` descending (JavaScript's
stable sort, modelled by stable `mergeSort`), and discard the session
data. -/
def stopProfiler (g : ProfSt) : List ProfResult × ProfSt :=
  let g1 := if g.savedOriginal = some true then
      { g with patched := false, savedOriginal := none }
    else g
  let results := ((g.data.getD []).map entryResult).mergeSort
    (fun a b => decide (b.renderCount ≤ a.renderCount))
  (results, { g1 with data := none })

/-- The key list of the session data. -/
def profKeys (d : ProfData) : List String := d.map (fun kv => kv.1)

-- ── Profiler lemmas ─────────────────────────────────────────────────────────

mutual

/-- The wrapper's walk accumulates exactly over the preorder filtered to
FunctionComponent/ClassComponent fibers with an alternate. -/
theorem profWalk_eq (f : Fiber) (d : ProfData) :
    profWalk f d = ((preorder f).filter profFilter).foldl
      (fun acc x => bumpEntry acc (profName x) x.actualDuration) d := by
  match f with
  | .mk tag key ty hk sn alt dur cs =>
    rw [profWalk, preorder, List.filter_cons]
    by_cases hm : profFilter (.mk tag key ty hk sn alt dur cs) = true
    · have hm2 : (((tag == 0) || (tag == 1)) && alt) = true := hm
      rw [if_pos hm, if_pos hm2, List.foldl_cons]
      exact profWalkList_eq cs _
    · have hm2 : ¬ (((tag == 0) || (tag == 1)) && alt) = true := hm
      rw [if_neg hm, if_neg hm2]
      exact profWalkList_eq cs d

/-- List version of `profWalk_eq`. -/
theorem profWalkList_eq (l : List Fiber) (d : ProfData) :
    profWalkList l d = ((preorderList l).filter profFilter).foldl
      (fun acc x => bumpEntry acc (profName x) x.actualDuration) d := by
  match l with
  | [] => rfl
  | c :: rest =>
      rw [profWalkList, preorderList, List.filter_append, List.foldl_append]
      rw [profWalk_eq c d, profWalkList_eq rest _]

end

theorem profKeys_cons (kv : String × PEntry) (rest : ProfData) :
    profKeys (kv :: rest) = kv.1 :: profKeys rest := rfl

theorem setEntry_keys (name : String) (e : PEntry) :
    ∀ d : ProfData,
      (name ∈ profKeys d → profKeys (setEntry d name e) = profKeys d) ∧
      (name ∉ profKeys d → profKeys (setEntry d name e) = profKeys d ++ [name]) := by
  intro d
  induction d with
  | nil =>
      constructor
      · intro hmem
        cases hmem
      · intro _
        rfl
  | cons kv rest ih =>
      by_cases h : (kv.1 == name) = true
      · have heq : kv.1 = name := by simpa using h
        constructor
        · intro _
          rw [setEntry, if_pos h, profKeys_cons, profKeys_cons]
        · intro hmem
          exact absurd (by rw [profKeys_cons, heq]; exact List.mem_cons_self _ _) hmem
      · have hne : kv.1 ≠ name := fun hc => h (by simp [hc])
        constructor
        · intro hmem
          have hmem2 : name ∈ profKeys rest := by
            rw [profKeys_cons] at hmem
            rcases List.mem_cons.mp hmem with hc | hm2
            · exact absurd hc.symm hne
            · exact hm2
          rw [setEntry, if_neg h, profKeys_cons, profKeys_cons, ih.1 hmem2]
        · intro hmem
          have hmem2 : name ∉ profKeys rest := by
            intro hc
            exact hmem (by rw [profKeys_cons]; exact List.mem_cons_of_mem _ hc)
          rw [setEntry, if_neg h, profKeys_cons, profKeys_cons, ih.2 hmem2]
          rfl

theorem bumpEntry_nodup (d : ProfData) (name : String) (dur : ℚ)
    (h : (profKeys d).Nodup) : (profKeys (bumpEntry d name dur)).Nodup := by
  rw [bumpEntry]
  by_cases hmem : name ∈ profKeys d
  · rw [(setEntry_keys name _ d).1 hmem]
    exact h
  · rw [(setEntry_keys name _ d).2 hmem]
    simp [List.nodup_append, h, hmem]

theorem foldl_bump_nodup :
    ∀ (xs : List Fiber) (d : ProfData), (profKeys d).Nodup →
      (profKeys (xs.foldl
        (fun acc x => bumpEntry acc (profName x) x.actualDuration) d)).Nodup := by
  intro xs
  induction xs with
  | nil => intro d h; exact h
  | cons x rest ih =>
      intro d h
      rw [List.foldl_cons]
      exact ih _ (bumpEntry_nodup d (profName x) x.actualDuration h)

theorem commitRoot_nodup (root : Fiber) (g : ProfSt)
    (h : ∀ d, g.data = some d → (profKeys d).Nodup) :
    ∀ d2, (commitRoot root g).data = some d2 → (profKeys d2).Nodup := by
  intro d2 hd2
  rw [commitRoot] at hd2
  by_cases hp : g.patched = true
  · rw [if_pos hp] at hd2
    cases hg : g.data with
    | none =>
        rw [hg] at hd2
        exact Option.noConfusion (show (none : Option ProfData) = some d2 from hd2)
    | some d0 =>
        rw [hg] at hd2
        have hd3 : some (profWalk root d0) = some d2 := hd2
        injection hd3 with hd4
        rw [← hd4, profWalk_eq]
        exact foldl_bump_nodup _ _ (h d0 hg)
  · rw [if_neg hp] at hd2
    exact h d2 hd2

theorem runCommits_nodup (roots : List Fiber) :
    ∀ (g : ProfSt), (∀ d, g.data = some d → (profKeys d).Nodup) →
      ∀ d2, (runCommits roots g).data = some d2 → (profKeys d2).Nodup := by
  induction roots with
  | nil => intro g h d2 hd2; exact h d2 hd2
  | cons r rest ih =>
      intro g h
      rw [runCommits]
      exact ih (commitRoot r g) (commitRoot_nodup r g h)

theorem roundHelper1 : ((⌊(1 : ℚ) * 100 + 1 / 2⌋ : ℤ)) = 100 := by
  rw [Int.floor_eq_iff]
  constructor <;> norm_num

theorem roundHelper2 : ((⌊(1 / 3 : ℚ) * 100 + 1 / 2⌋ : ℤ)) = 33 := by
  rw [Int.floor_eq_iff]
  constructor <;> norm_num

theorem round2_one : round2 1 = 1 := by
  rw [round2, roundHelper1]
  norm_num

theorem round2_third : round2 (1 / 3) = 33 / 100 := by
  rw [round2, roundHelper2]
  norm_num

theorem mergeSort_single (le : ProfResult → ProfResult → Bool) (x : ProfResult) :
    [x].mergeSort le = [x] :=
  List.perm_singleton.mp (List.mergeSort_perm [x] le)

theorem commitRoot_preserves (root : Fiber) (g : ProfSt) :
    (commitRoot root g).patched = g.patched ∧
    (commitRoot root g).savedOriginal = g.savedOriginal ∧
    (commitRoot root g).originalIsFn = g.originalIsFn := by
  rw [commitRoot]
  split <;> exact ⟨rfl, rfl, rfl⟩

theorem runCommits_preserves (roots : List Fiber) :
    ∀ g : ProfSt, (runCommits roots g).patched = g.patched ∧
      (runCommits roots g).savedOriginal = g.savedOriginal ∧
      (runCommits roots g).originalIsFn = g.originalIsFn := by
  induction roots with
  | nil => intro g; exact ⟨rfl, rfl, rfl⟩
  | cons r rest ih =>
      intro g
      rw [runCommits]
      obtain ⟨h1, h2, h3⟩ := ih (commitRoot r g)
      obtain ⟨c1, c2, c3⟩ := commitRoot_preserves r g
      exact ⟨h1.trans c1, h2.trans c2, h3.trans c3⟩

/-- C8 (amended twice: the returned `totalDuration` is rounded to two
decimals and `avgDuration` is `Math.round((totalDuration /
renderCount) * 100) / 100` — the exact quotient rounded to two
decimals — rather than the exact quotient of the returned fields; and
`stopProfiler` restores the original callback and deletes the saved
slot precisely when the saved-aside callback is truthy — so whenever
the hook had a function commit callback installed at `startProfiler`
time — while a falsy saved original leaves the wrapper installed):
`startProfiler` saves the current commit callback aside, installs the
wrapper and resets the session data; a commit under the wrapper
accumulates exactly the FunctionComponent/ClassComponent fibers that
have a previous-render counterpart (an alternate), in preorder, and
forwards to the original callback when it is a function;
`stopProfiler` discards the session data, returns one row per
resolved display name (distinct names, with the rounded duration
fields), sorted by `renderCount` descending; and `stopProfiler`
without a prior `startProfiler` returns an empty list rather than
erroring. -/
theorem profiler_startStop (g : ProfSt) (root : Fiber) (roots : List Fiber)
    (data0 : ProfData) :
    ((startProfiler g).patched = true ∧
      (startProfiler g).savedOriginal = some g.originalIsFn ∧
      (startProfiler g).data = some []) ∧
    (g.patched = true → g.data = some data0 →
      (commitRoot root g).data =
        some (((preorder root).filter profFilter).foldl
          (fun acc x => bumpEntry acc (profName x) x.actualDuration) data0) ∧
      (commitRoot root g).originalCalls =
        g.originalCalls + (if g.originalIsFn then 1 else 0)) ∧
    (g.savedOriginal = some true → (stopProfiler g).2.patched = false ∧
      (stopProfiler g).2.savedOriginal = none) ∧
    (¬ g.savedOriginal = some true →
      (stopProfiler g).2.patched = g.patched ∧
      (stopProfiler g).2.savedOriginal = g.savedOriginal) ∧
    (g.originalIsFn = true →
      (stopProfiler (runCommits roots (startProfiler g))).2.patched = false ∧
      (stopProfiler (runCommits roots (startProfiler g))).2.savedOriginal = none) ∧
    (stopProfiler g).2.data = none ∧
    (g.data = none → (stopProfiler g).1 = []) ∧
    (∀ d2, (runCommits roots (startProfiler g)).data = some d2 →
      (profKeys d2).Nodup) ∧
    (∀ r ∈ (stopProfiler g).1, ∃ kv ∈ g.data.getD [],
      r.componentName = kv.1 ∧ r.renderCount = kv.2.renderCount ∧
      r.totalDuration = round2 kv.2.totalDuration ∧
      r.avgDuration = (if kv.2.renderCount > 0 then
        round2 (kv.2.totalDuration / (kv.2.renderCount : ℚ)) else 0)) ∧
    List.Pairwise (fun a b => b.renderCount ≤ a.renderCount) (stopProfiler g).1 ∧
    ((profKeys (g.data.getD [])).Nodup →
      ((stopProfiler g).1.map (fun r => r.componentName)).Nodup) := by
  refine ⟨⟨rfl, rfl, rfl⟩, ?_, ?_, ?_, ?_, rfl, ?_, ?_, ?_, ?_, ?_⟩
  · intro hp hd
    constructor
    · have h1 : (commitRoot root g).data = g.data.map (profWalk root) := by
        rw [commitRoot, if_pos hp]
      rw [h1, hd]
      show some (profWalk root data0) = _
      rw [profWalk_eq]
    · rw [commitRoot, if_pos hp]
  · intro hs
    constructor <;> simp [stopProfiler, hs]
  · intro hs
    constructor <;> simp [stopProfiler, hs]
  · intro hfn
    have hsv : (runCommits roots (startProfiler g)).savedOriginal = some true := by
      rw [(runCommits_preserves roots (startProfiler g)).2.1]
      show some g.originalIsFn = some true
      rw [hfn]
    constructor <;> simp [stopProfiler, hsv]
  · intro hd
    have h1 : (stopProfiler g).1 = ((g.data.getD []).map entryResult).mergeSort
        (fun a b => decide (b.renderCount ≤ a.renderCount)) := rfl
    rw [h1, hd]
    exact List.Perm.eq_nil (List.mergeSort_perm _ _)
  · intro d2 hd2
    refine runCommits_nodup roots (startProfiler g) ?_ d2 hd2
    intro d hd
    have h2 : some ([] : ProfData) = some d := hd
    injection h2 with h3
    rw [← h3]
    exact List.nodup_nil
  · intro r hr
    have hr0 : r ∈ ((g.data.getD []).map entryResult).mergeSort
        (fun a b => decide (b.renderCount ≤ a.renderCount)) := hr
    have hr2 : r ∈ (g.data.getD []).map entryResult :=
      (List.mergeSort_perm _ _).mem_iff.mp hr0
    obtain ⟨kv, hkv, hre⟩ := List.mem_map.mp hr2
    subst hre
    exact ⟨kv, hkv, rfl, rfl, rfl, rfl⟩
  · have htrans : ∀ (a b c : ProfResult),
        (decide (b.renderCount ≤ a.renderCount)) = true →
        (decide (c.renderCount ≤ b.renderCount)) = true →
        (decide (c.renderCount ≤ a.renderCount)) = true := by
      intro a b c h1 h2
      simp only [decide_eq_true_eq] at h1 h2 ⊢
      omega
    have htotal : ∀ (a b : ProfResult),
        ((decide (b.renderCount ≤ a.renderCount)) ||
         (decide (a.renderCount ≤ b.renderCount))) = true := by
      intro a b
      simp only [Bool.or_eq_true, decide_eq_true_eq]
      omega
    have hs := List.sorted_mergeSort htrans htotal ((g.data.getD []).map entryResult)
    exact hs.imp (fun h => by simpa using h)
  · intro hkeys
    have hcomp : ((fun r : ProfResult => r.componentName) ∘ entryResult) =
        fun kv : String × PEntry => kv.1 := rfl
    have hnd : (((g.data.getD []).map entryResult).map
        (fun r => r.componentName)).Nodup := by
      rw [List.map_map, hcomp]
      exact hkeys
    have hperm := (List.mergeSort_perm ((g.data.getD []).map entryResult)
      (fun a b => decide (b.renderCount ≤ a.renderCount))).map
      (fun r : ProfResult => r.componentName)
    exact hperm.nodup_iff.mpr hnd

/-- A profiler state in which one component `"A"` has re-rendered three
times for one accumulated millisecond of duration. -/
def cgProf : ProfSt := ⟨some [("A", ⟨3, 1⟩)], some true, true, true, 0⟩

/-- A target whose debug hook has no commit callback installed
(`hook.onCommitFiberRoot` is undefined) and no profiler session. -/
def noCbProf : ProfSt := ⟨none, none, false, false, 0⟩

/-- C8 (counterexample to the claim as stated, on two counts): with an
accumulated entry `renderCount = 3, totalDuration = 1`, `stopProfiler`
returns `avgDuration = 0.33`, but `totalDuration / renderCount = 1/3 ≠
0.33` — the returned average is rounded to two decimals, not the exact
quotient the claim states; and on a target whose hook had no commit
callback when `startProfiler` ran, the saved-aside value is falsy, the
restore guard of `stopProfiler` fails, and the wrapper is left
installed — `stop()` does not restore the original callback for that
start/stop pair. -/
theorem stopProfiler_avg_counterexample :
    ((stopProfiler cgProf).1 = [⟨"A", 3, 1, 33 / 100⟩] ∧
      ¬ ((⟨"A", 3, 1, 33 / 100⟩ : ProfResult).avgDuration =
          (⟨"A", 3, 1, 33 / 100⟩ : ProfResult).totalDuration /
            ((⟨"A", 3, 1, 33 / 100⟩ : ProfResult).renderCount : ℚ))) ∧
    ((startProfiler noCbProf).patched = true ∧
      (stopProfiler (startProfiler noCbProf)).2.patched = true ∧
      (stopProfiler (startProfiler noCbProf)).2.savedOriginal = some false) := by
  refine ⟨⟨?_, ?_⟩, rfl, rfl, rfl⟩
  · have h1 : (stopProfiler cgProf).1 =
        [entryResult ("A", ⟨3, 1⟩)].mergeSort
          (fun a b => decide (b.renderCount ≤ a.renderCount)) := rfl
    rw [h1, mergeSort_single]
    have hcast : ((3 : Nat) : ℚ) = 3 := by norm_num
    have h2 : entryResult ("A", (⟨3, 1⟩ : PEntry)) =
        (⟨"A", 3, 1, 33 / 100⟩ : ProfResult) := by
      show ProfResult.mk "A" 3 (round2 1)
          (if 3 > 0 then round2 ((1 : ℚ) / ((3 : Nat) : ℚ)) else 0) = _
      rw [round2_one, if_pos (by norm_num : 3 > 0), hcast, round2_third]
    rw [h2]
  · intro h
    have h2 : (33 : ℚ) / 100 = 1 / ((3 : Nat) : ℚ) := h
    norm_num at h2

theorem profiler_startStop_witness :
    (cgProf.savedOriginal = some true ∧ (stopProfiler cgProf).2.patched = false) ∧
    (cgProf.patched = true ∧ cgProf.data = some [("A", ⟨3, 1⟩)] ∧
      (commitRoot demoApp cgProf).originalCalls = cgProf.originalCalls + 1) ∧
    (cgProf.originalIsFn = true ∧
      (stopProfiler (runCommits [] (startProfiler cgProf))).2.patched = false) ∧
    (¬ (ProfSt.mk none none false true 0).savedOriginal = some true ∧
      (stopProfiler (ProfSt.mk none none false true 0)).2.patched =
        (ProfSt.mk none none false true 0).patched) ∧
    ((ProfSt.mk none none false true 0).data = none ∧
      (stopProfiler (ProfSt.mk none none false true 0)).1 = []) := by
  have hth := profiler_startStop cgProf demoApp [] [("A", ⟨3, 1⟩)]
  have hth2 := profiler_startStop (ProfSt.mk none none false true 0) demoApp [] []
  refine ⟨⟨rfl, (hth.2.2.1 rfl).1⟩, ⟨rfl, rfl, ?_⟩,
          ⟨rfl, (hth.2.2.2.2.1 rfl).1⟩,
          ⟨by simp, (hth2.2.2.2.1 (by simp)).1⟩,
          ⟨rfl, hth2.2.2.2.2.2.2.1 rfl⟩⟩
  have h := (hth.2.1 rfl rfl).2
  simpa using h

end ReactFiber
